import Mathlib

/-!
Verification development for the pypxml PAGE-XML document model
(src/pypxml/pagetype.py, pageelement.py, pagexml.py).

The Python classes are embedded shallowly:

* `PageType` mirrors the `PageType` enum (pagetype.py), with `value`,
  `is_region`, `is_valid` and the `PageType[name]` lookup (`ofString?`).
* `PageElement` mirrors the `PageElement` class (pageelement.py): a page type,
  an attribute dictionary (association list of string pairs, first match wins
  for lookups), optional text and an ordered list of child elements.  The
  non-owning `parent` back-reference is not modelled: no modelled claim
  observes it.
* `PageXML` mirrors the `PageXML` class (pagexml.py): metadata, image fields,
  Page attributes, the reading order (list of region ids) and the list of
  top-level elements.
* lxml etree objects are modelled by `XTree` (tag, attributes, text,
  children).  Namespace maps are not modelled: the tag of `XTree.mk t ...` is
  the local name that the Python code sees through the `{*}` wildcard or the
  `tag.split("}")` idiom.
* Python exceptions (`ValueError`, `TypeError`) are modelled with
  `Except String` / `Option`: a `raise` before any mutation corresponds to an
  `.error` result that leaves the caller's document value unchanged.
* Python `int(...)` / `str(...)` on decimal integers are modelled by
  `parseInt` / `natRepr`, defined below on character lists.
-/

instance {ε α : Type} [DecidableEq ε] [DecidableEq α] : DecidableEq (Except ε α) := fun x y =>
  match x, y with
  | .ok a, .ok b =>
      if h : a = b then .isTrue (by rw [h]) else .isFalse (by intro he; cases he; exact h rfl)
  | .error a, .error b =>
      if h : a = b then .isTrue (by rw [h]) else .isFalse (by intro he; cases he; exact h rfl)
  | .ok _, .error _ => .isFalse (by intro he; cases he)
  | .error _, .ok _ => .isFalse (by intro he; cases he)

/-! ## Decimal printing and parsing (models Python str()/int() on integers) -/

/-- Character for one decimal digit, as produced by Python str(). -/
def digitChar (d : Nat) : Char :=
  match d with
  | 0 => '0' | 1 => '1' | 2 => '2' | 3 => '3' | 4 => '4'
  | 5 => '5' | 6 => '6' | 7 => '7' | 8 => '8' | _ => '9'

/-- Big-endian digit list of a natural number; `fuel` bounds the recursion so
that the definition is structural (any `fuel > n` yields the digits of n). -/
def natDigits : Nat → Nat → List Nat
  | 0, _ => []
  | fuel + 1, n => if n < 10 then [n] else natDigits fuel (n / 10) ++ [n % 10]

/-- Model of Python str() on a natural number. -/
def natRepr (n : Nat) : String :=
  String.mk ((natDigits (n + 1) n).map digitChar)

/-- Model of Python str() on an integer. -/
def intRepr (i : Int) : String :=
  if i < 0 then String.mk ('-' :: (natDigits (i.natAbs + 1) i.natAbs).map digitChar)
  else natRepr i.toNat

/-- Numeric value of one decimal digit character. -/
def charDigit (c : Char) : Option Nat :=
  if '0' ≤ c ∧ c ≤ '9' then some (c.toNat - '0'.toNat) else none

/-- Left fold accumulating a decimal value; any non-digit poisons the result. -/
def foldDigits : Option Nat → List Char → Option Nat
  | acc, [] => acc
  | acc, c :: cs =>
      foldDigits
        (match acc, charDigit c with
         | some a, some d => some (a * 10 + d)
         | _, _ => none) cs

/-- Value of a non-empty all-digit character list. -/
def digitsVal (cs : List Char) : Option Nat :=
  if cs.isEmpty then none else foldDigits (some 0) cs

/-- Model of Python int() on a character list: optional sign, then a
non-empty digit run.  (Python additionally strips whitespace and allows
underscores; no input in this development uses those.) -/
def parseIntChars (cs : List Char) : Option Int :=
  match cs with
  | [] => none
  | c :: cs' =>
      if c = '-' then (digitsVal cs').map (fun n => -(n : Int))
      else if c = '+' then (digitsVal cs').map (fun n => (n : Int))
      else (digitsVal (c :: cs')).map (fun n => (n : Int))

/-- Model of Python int() on a string. -/
def parseInt (s : String) : Option Int :=
  parseIntChars s.data

/-! ## PageType (pagetype.py) -/

/-- The PageType enum from pagetype.py: every legal PAGE-XML tag. -/
inductive PageType where
  | ReadingOrder | RegionRef | OrderedGroup | UnorderedGroup
  | OrderedGroupIndexed | UnorderedGroupIndexed | RegionRefIndexed
  | AdvertRegion | ChartRegion | ChemRegion | CustomRegion | GraphicRegion
  | ImageRegion | LineDrawingRegion | MapRegion | MathsRegion | MusicRegion
  | NoiseRegion | SeparatorRegion | TableRegion | TextRegion | UnknownRegion
  | AlternativeImage | Baseline | Border | Coords | Glyph | GraphemeGroup
  | Grapheme | Grid | GridPoints | Label | Labels | Layer | Layers
  | Metadata | NonPrintingChar | PlainText | PrintSpace | Relations | Roles
  | TextEquiv | TextLine | TextStyle | Unicode | UserAttribute | UserDefined
  | Word
  deriving DecidableEq

/-- Tag string of a PageType (its enum value; names and values coincide). -/
def PageType.value : PageType → String
  | .ReadingOrder => "ReadingOrder"
  | .RegionRef => "RegionRef"
  | .OrderedGroup => "OrderedGroup"
  | .UnorderedGroup => "UnorderedGroup"
  | .OrderedGroupIndexed => "OrderedGroupIndexed"
  | .UnorderedGroupIndexed => "UnorderedGroupIndexed"
  | .RegionRefIndexed => "RegionRefIndexed"
  | .AdvertRegion => "AdvertRegion"
  | .ChartRegion => "ChartRegion"
  | .ChemRegion => "ChemRegion"
  | .CustomRegion => "CustomRegion"
  | .GraphicRegion => "GraphicRegion"
  | .ImageRegion => "ImageRegion"
  | .LineDrawingRegion => "LineDrawingRegion"
  | .MapRegion => "MapRegion"
  | .MathsRegion => "MathsRegion"
  | .MusicRegion => "MusicRegion"
  | .NoiseRegion => "NoiseRegion"
  | .SeparatorRegion => "SeparatorRegion"
  | .TableRegion => "TableRegion"
  | .TextRegion => "TextRegion"
  | .UnknownRegion => "UnknownRegion"
  | .AlternativeImage => "AlternativeImage"
  | .Baseline => "Baseline"
  | .Border => "Border"
  | .Coords => "Coords"
  | .Glyph => "Glyph"
  | .GraphemeGroup => "GraphemeGroup"
  | .Grapheme => "Grapheme"
  | .Grid => "Grid"
  | .GridPoints => "GridPoints"
  | .Label => "Label"
  | .Labels => "Labels"
  | .Layer => "Layer"
  | .Layers => "Layers"
  | .Metadata => "Metadata"
  | .NonPrintingChar => "NonPrintingChar"
  | .PlainText => "PlainText"
  | .PrintSpace => "PrintSpace"
  | .Relations => "Relations"
  | .Roles => "Roles"
  | .TextEquiv => "TextEquiv"
  | .TextLine => "TextLine"
  | .TextStyle => "TextStyle"
  | .Unicode => "Unicode"
  | .UserAttribute => "UserAttribute"
  | .UserDefined => "UserDefined"
  | .Word => "Word"

/-- All enum members, in declaration order (the enum's `__members__`). -/
def PageType.members : List PageType :=
  [.ReadingOrder, .RegionRef, .OrderedGroup, .UnorderedGroup,
   .OrderedGroupIndexed, .UnorderedGroupIndexed, .RegionRefIndexed,
   .AdvertRegion, .ChartRegion, .ChemRegion, .CustomRegion, .GraphicRegion,
   .ImageRegion, .LineDrawingRegion, .MapRegion, .MathsRegion, .MusicRegion,
   .NoiseRegion, .SeparatorRegion, .TableRegion, .TextRegion, .UnknownRegion,
   .AlternativeImage, .Baseline, .Border, .Coords, .Glyph, .GraphemeGroup,
   .Grapheme, .Grid, .GridPoints, .Label, .Labels, .Layer, .Layers,
   .Metadata, .NonPrintingChar, .PlainText, .PrintSpace, .Relations, .Roles,
   .TextEquiv, .TextLine, .TextStyle, .Unicode, .UserAttribute, .UserDefined,
   .Word]

/-- The `PageType[name]` lookup: the member whose name equals the string
(member names and values coincide in this enum). -/
def PageType.ofString? (s : String) : Option PageType :=
  PageType.members.find? (fun pt => pt.value == s)

/-- Model of `PageType.is_valid`: the string is one of the member names. -/
def PageType.is_valid (s : String) : Bool :=
  (PageType.ofString? s).isSome

/-- Model of the `PageType.is_region` property: membership of the tag value
in the literal list of the fifteen region tags (pagetype.py). -/
def PageType.is_region (pt : PageType) : Bool :=
  ["AdvertRegion", "ChartRegion", "ChemRegion", "CustomRegion", "GraphicRegion",
   "ImageRegion", "LineDrawingRegion", "MapRegion", "MathsRegion", "MusicRegion",
   "NoiseRegion", "SeparatorRegion", "TableRegion", "TextRegion",
   "UnknownRegion"].contains pt.value

theorem PageType.ofString?_value (pt : PageType) : PageType.ofString? pt.value = some pt := by
  cases pt <;> rfl

theorem PageType.ofString?_eq_some (s : String) (pt : PageType)
    (h : PageType.ofString? s = some pt) : s = pt.value := by
  unfold PageType.ofString? at h
  have h1 := List.find?_some h
  simp only [beq_iff_eq] at h1
  exact h1.symm

/-! ## PageElement (pageelement.py) -/

/-- The PageElement class: page type, XML attribute dictionary (association
list, unique keys by construction in the source, first match wins), optional
text, ordered children. -/
inductive PageElement where
  | mk (pagetype : PageType) (attributes : List (String × String))
       (text : Option String) (elements : List PageElement)

mutual
def PageElement.beq : PageElement → PageElement → Bool
  | .mk t1 a1 x1 e1, .mk t2 a2 x2 e2 =>
      t1 == t2 && a1 == a2 && x1 == x2 && beqElemList e1 e2
def beqElemList : List PageElement → List PageElement → Bool
  | [], [] => true
  | e :: es, f :: fs => PageElement.beq e f && beqElemList es fs
  | _, _ => false
end

mutual
theorem PageElement.beq_iff : ∀ a b : PageElement, PageElement.beq a b = true ↔ a = b
  | .mk t1 a1 x1 e1, .mk t2 a2 x2 e2 => by
      simp only [PageElement.beq, Bool.and_eq_true, beq_iff_eq, PageElement.mk.injEq]
      rw [beqElemList_iff e1 e2]
      tauto
theorem beqElemList_iff : ∀ a b : List PageElement, beqElemList a b = true ↔ a = b
  | [], [] => by simp [beqElemList]
  | [], _ :: _ => by simp [beqElemList]
  | _ :: _, [] => by simp [beqElemList]
  | e :: es, f :: fs => by
      simp only [beqElemList, Bool.and_eq_true, List.cons.injEq]
      rw [PageElement.beq_iff e f, beqElemList_iff es fs]
end

instance : DecidableEq PageElement := fun a b => decidable_of_iff _ (PageElement.beq_iff a b)

def PageElement.pagetype : PageElement → PageType
  | .mk pt _ _ _ => pt

def PageElement.attributes : PageElement → List (String × String)
  | .mk _ a _ _ => a

def PageElement.text : PageElement → Option String
  | .mk _ _ x _ => x

def PageElement.elements : PageElement → List PageElement
  | .mk _ _ _ els => els

/-- Dictionary lookup, first matching key wins (models dict.get(key, None)). -/
def lookupAttr : List (String × String) → String → Option String
  | [], _ => none
  | kv :: rest, k => if kv.1 = k then some kv.2 else lookupAttr rest k

/-- Model of element[key] (`__getitem__`): attribute lookup, None if absent. -/
def PageElement.getAttr (e : PageElement) (k : String) : Option String :=
  lookupAttr e.attributes k

/-- Model of key in element (`__contains__` for attribute keys). -/
def PageElement.hasAttr (e : PageElement) (k : String) : Bool :=
  (PageElement.getAttr e k).isSome

/-- The `is_region` property of a PageElement. -/
def PageElement.is_region (e : PageElement) : Bool :=
  e.pagetype.is_region

/-- Python truthiness of element["id"]: the attribute exists and is a
non-empty string. -/
def PageElement.idTruthy (e : PageElement) : Bool :=
  match PageElement.getAttr e "id" with
  | some s => s ≠ ""
  | none => false

/-! ## Generic XML tree (model of lxml etree elements) -/

/-- Generic XML element: local tag name, attribute list, text, children. -/
inductive XTree where
  | mk (tag : String) (attrs : List (String × String))
       (text : Option String) (children : List XTree)

mutual
def XTree.beq : XTree → XTree → Bool
  | .mk t1 a1 x1 c1, .mk t2 a2 x2 c2 =>
      t1 == t2 && a1 == a2 && x1 == x2 && beqXTreeList c1 c2
def beqXTreeList : List XTree → List XTree → Bool
  | [], [] => true
  | t :: ts, u :: us => XTree.beq t u && beqXTreeList ts us
  | _, _ => false
end

mutual
theorem XTree.beqTree_iff : ∀ a b : XTree, XTree.beq a b = true ↔ a = b
  | .mk t1 a1 x1 c1, .mk t2 a2 x2 c2 => by
      simp only [XTree.beq, Bool.and_eq_true, beq_iff_eq, XTree.mk.injEq]
      rw [beqXTreeList_iff c1 c2]
      tauto
theorem beqXTreeList_iff : ∀ a b : List XTree, beqXTreeList a b = true ↔ a = b
  | [], [] => by simp [beqXTreeList]
  | [], _ :: _ => by simp [beqXTreeList]
  | _ :: _, [] => by simp [beqXTreeList]
  | t :: ts, u :: us => by
      simp only [beqXTreeList, Bool.and_eq_true, List.cons.injEq]
      rw [XTree.beqTree_iff t u, beqXTreeList_iff ts us]
end

instance : DecidableEq XTree := fun a b => decidable_of_iff _ (XTree.beqTree_iff a b)

def XTree.tag : XTree → String
  | .mk t _ _ _ => t

def XTree.attrs : XTree → List (String × String)
  | .mk _ a _ _ => a

def XTree.text : XTree → Option String
  | .mk _ _ x _ => x

def XTree.children : XTree → List XTree
  | .mk _ _ _ c => c

/-- Model of element.get(key): attribute lookup on an etree element. -/
def XTree.get (t : XTree) (k : String) : Option String :=
  lookupAttr t.attrs k

/-- Model of tree.find("./{*}Tag"): first direct child with the given local
tag name, in document order. -/
def findChild (t : XTree) (tg : String) : Option XTree :=
  t.children.find? (fun c => c.tag == tg)

/-! ## PageElement tree operations (pageelement.py) -/

/-- Filter test of find_by_type: the element's type is one of the requested
types, and (if any attribute filter is given) every requested attribute is
present with the requested value. -/
def matchesFilter (e : PageElement) (pagetypes : List PageType)
    (attrs : List (String × String)) : Bool :=
  pagetypes.contains e.pagetype &&
    (attrs.isEmpty || attrs.all (fun kv => PageElement.getAttr e kv.1 == some kv.2))

mutual
/-- Model of PageElement.find_by_type: scan the direct children; a child
matching the filter is collected, and if depth is not 0 the search recurses
into the child with depth max(-1, depth - 1), concatenating results. -/
def PageElement.find_by_type (e : PageElement) (pagetypes : List PageType) (depth : Int)
    (attrs : List (String × String)) : List PageElement :=
  match e with
  | .mk _ _ _ els => find_by_type_list pagetypes depth attrs els
def find_by_type_list (pagetypes : List PageType) (depth : Int)
    (attrs : List (String × String)) : List PageElement → List PageElement
  | [] => []
  | e :: es =>
      (if matchesFilter e pagetypes attrs then [e] else []) ++
      (if depth ≠ 0 then PageElement.find_by_type e pagetypes (max (-1) (depth - 1)) attrs
       else []) ++
      find_by_type_list pagetypes depth attrs es
end

/-- Model of PageElement.find_coords: the element itself if it is a Coords
element, else its first direct Coords child. -/
def PageElement.find_coords (e : PageElement) : Option PageElement :=
  if e.pagetype = PageType.Coords then some e
  else
    match PageElement.find_by_type e [PageType.Coords] 0 [] with
    | c :: _ => some c
    | [] => none

mutual
/-- Model of PageElement.to_etree: tag is the type's value string; attributes,
text and children carry over. -/
def PageElement.to_etree : PageElement → XTree
  | .mk pt a x els => XTree.mk pt.value a x (to_etree_list els)
def to_etree_list : List PageElement → List XTree
  | [] => []
  | e :: es => PageElement.to_etree e :: to_etree_list es
end

mutual
/-- Model of PageElement.from_etree with raise_on_error=True: an unknown tag
raises ValueError; otherwise the element is rebuilt with its attributes, text
and recursively converted children (a child error propagates). -/
def PageElement.from_etree : XTree → Except String PageElement
  | .mk tg a x children =>
      match PageType.ofString? tg with
      | none => .error ("Could not parse unknown element: " ++ tg)
      | some pt =>
          match from_etree_list children with
          | .ok els => .ok (PageElement.mk pt a x els)
          | .error msg => .error msg
def from_etree_list : List XTree → Except String (List PageElement)
  | [] => .ok []
  | t :: ts =>
      match PageElement.from_etree t with
      | .ok e =>
          match from_etree_list ts with
          | .ok es => .ok (e :: es)
          | .error msg => .error msg
      | .error msg => .error msg
end

/-- Sort key of one TextEquiv candidate in find_text: -1 when the element has
no index attribute, else int(index) (which raises on a non-numeric value). -/
def teKey (x : PageElement) : Except String Int :=
  if PageElement.hasAttr x "index" = false then .ok (-1)
  else
    match parseInt ((PageElement.getAttr x "index").getD "") with
    | some k => .ok k
    | none => .error "invalid literal for int() with base 10"

def teKeyList : List PageElement → Except String (List (Int × PageElement))
  | [] => .ok []
  | x :: xs =>
      match teKey x with
      | .ok k =>
          match teKeyList xs with
          | .ok rest => .ok ((k, x) :: rest)
          | .error msg => .error msg
      | .error msg => .error msg

/-- Comparison used when sorting TextEquiv candidates by key. -/
def teLe (a b : Int × PageElement) : Prop := a.1 ≤ b.1

instance : DecidableRel teLe := fun a b => Int.decLe a.1 b.1

instance : IsTotal (Int × PageElement) teLe := ⟨fun a b => Int.le_total a.1 b.1⟩

instance : IsTrans (Int × PageElement) teLe := ⟨fun _ _ _ => Int.le_trans⟩

/-- Shared tail of find_text: take the first candidate, look for a direct
child of the requested text-leaf type, and return its text. -/
def pickFirstText (l : List PageElement) (source : PageType) : Option String :=
  match l with
  | [] => none
  | x :: _ =>
      match PageElement.find_by_type x [source] 0 [] with
      | [] => none
      | t :: _ => t.text

/-- Model of PageElement.find_text: a text leaf returns its own text; a
TextEquiv is its own single candidate; otherwise the direct TextEquiv
children are collected (filtered by the index attribute when an explicit
index is requested — passing index=None leaves the filter empty, matching
the `if v is not None` guard in find_by_type).  With more than one candidate
the list is sorted stably by key (missing index counts as -1) and the first
candidate is used; only a non-numeric index attribute can raise. -/
def PageElement.find_text (e : PageElement) (index : Option Int) (source : PageType) :
    Except String (Option String) :=
  if e.pagetype = PageType.Unicode ∨ e.pagetype = PageType.PlainText then .ok e.text
  else
    let tes :=
      if e.pagetype = PageType.TextEquiv then [e]
      else
        PageElement.find_by_type e [PageType.TextEquiv] 0
          (match index with
           | none => []
           | some i => [("index", intRepr i)])
    if tes.length > 1 then
      match teKeyList tes with
      | .ok keyed => .ok (pickFirstText ((List.insertionSort teLe keyed).map (fun p => p.2)) source)
      | .error msg => .error msg
    else .ok (pickFirstText tes source)

/-! ## PageXML (pagexml.py) -/

/-- The PageXML class: metadata strings, image fields (height and width are
clamped to be non-negative by their setters, hence Nat), further Page
attributes, the reading order and the top-level elements. -/
structure PageXML where
  creator : String
  created : String
  last_change : String
  filename : String
  height : Nat
  width : Nat
  attributes : List (String × String)
  reading_order : List String
  elements : List PageElement
  deriving DecidableEq

/-- Model of Python list.insert(i, x): a negative index counts from the end
(clamped at 0), an index past the end appends. -/
def listInsertPy {α : Type} (l : List α) (i : Int) (x : α) : List α :=
  let n : Nat := if i < 0 then (l.length + i).toNat else min i.toNat l.length
  l.take n ++ x :: l.drop n

/-- Model of PageXML.set_element: when ro is set, the element is a region and
its id attribute is truthy, a duplicate id in the reading order raises
ValueError before any mutation; otherwise the id is inserted into the reading
order and the element into the elements list (both at the given index, or
appended). -/
def PageXML.set_element (p : PageXML) (e : PageElement) (index : Option Int) (ro : Bool) :
    Except String PageXML :=
  if ro && e.is_region && e.idTruthy then
    -- here getAttr e "id" = some s with s ≠ "" (idTruthy); getD is never used
    let s := (PageElement.getAttr e "id").getD ""
    if s ∈ p.reading_order then .error ("id " ++ s ++ " is already in reading order")
    else
      .ok { p with
        reading_order :=
          listInsertPy p.reading_order (index.getD (p.reading_order.length : Int)) s,
        elements := listInsertPy p.elements (index.getD (p.elements.length : Int)) e }
  else
    .ok { p with elements := listInsertPy p.elements (index.getD (p.elements.length : Int)) e }

/-- Model of PageXML.create_element: build the element, then set_element with
ro defaulting to True.  The element is constructed before set_element runs,
so on a duplicate id the element exists but is not inserted. -/
def PageXML.create_element (p : PageXML) (pagetype : PageType) (index : Option Int)
    (attrs : List (String × String)) : Except String (PageXML × PageElement) :=
  let e := PageElement.mk pagetype attrs none []
  match PageXML.set_element p e index true with
  | .ok p' => .ok (p', e)
  | .error msg => .error msg

/-- Model of PageXML.delete_element: remove the first occurrence of the
element; if it has an id that is in the reading order, remove that id too. -/
def PageXML.delete_element (p : PageXML) (e : PageElement) : PageXML × Option PageElement :=
  if e ∈ p.elements then
    let ro :=
      match PageElement.getAttr e "id" with
      | some s => if s ∈ p.reading_order then p.reading_order.erase s else p.reading_order
      | none => p.reading_order
    ({ p with elements := p.elements.erase e, reading_order := ro }, some e)
  else (p, none)

/-- Model of PageXML.clear_elements: wipe elements and reading order. -/
def PageXML.clear_elements (p : PageXML) : PageXML :=
  { p with elements := [], reading_order := [] }

/-- Model of PageXML.find_by_type (same loop as the PageElement version, over
the document's top-level elements). -/
def PageXML.find_by_type (p : PageXML) (pagetypes : List PageType) (depth : Int)
    (attrs : List (String × String)) : List PageElement :=
  find_by_type_list pagetypes depth attrs p.elements

/-- Position index built from the reading order by apply_reading_order
(`{id: index for index, id in enumerate(...)}`): a duplicated id keeps its
last index, as a later dict write overwrites an earlier one. -/
def roOrderPos (ro : List String) (s : String) : Option Nat :=
  ((ro.enum.filter (fun pr => pr.2 == s)).getLast?).map (fun pr => pr.1)

/-- Sort key of apply_reading_order: non-regions (0,0); regions whose id is in
the order dict (1, position); all other regions (2,0). -/
def applySortKey (ro : List String) (e : PageElement) : Nat × Nat :=
  if e.is_region = false then (0, 0)
  else
    match PageElement.getAttr e "id" with
    | some s =>
        match roOrderPos ro s with
        | some i => (1, i)
        | none => (2, 0)
    | none => (2, 0)

/-- Python tuple comparison (lexicographic), as used by list.sort on the
2-tuples returned by the sort keys. -/
def tupLe {β : Type} [LinearOrder β] (a b : Nat × β) : Prop :=
  a.1 < b.1 ∨ (a.1 = b.1 ∧ a.2 ≤ b.2)

instance {β : Type} [LinearOrder β] : DecidableRel (@tupLe β _) := fun a b => by
  unfold tupLe
  infer_instance

instance {β : Type} [LinearOrder β] : IsTotal (Nat × β) tupLe :=
  ⟨fun a b => by
    unfold tupLe
    rcases Nat.lt_trichotomy a.1 b.1 with h | h | h
    · exact Or.inl (Or.inl h)
    · rcases le_total a.2 b.2 with h2 | h2
      · exact Or.inl (Or.inr ⟨h, h2⟩)
      · exact Or.inr (Or.inr ⟨h.symm, h2⟩)
    · exact Or.inr (Or.inl h)⟩

instance {β : Type} [LinearOrder β] : IsTrans (Nat × β) tupLe :=
  ⟨fun a b c hab hbc => by
    unfold tupLe at *
    rcases hab with h | ⟨h1, h2⟩ <;> rcases hbc with g | ⟨g1, g2⟩
    · exact Or.inl (h.trans g)
    · exact Or.inl (g1 ▸ h)
    · exact Or.inl (h1 ▸ g)
    · exact Or.inr ⟨h1.trans g1, h2.trans g2⟩⟩

/-- Ordering of elements used by apply_reading_order. -/
def applyRoLe (ro : List String) (a b : PageElement) : Prop :=
  tupLe (applySortKey ro a) (applySortKey ro b)

instance (ro : List String) : DecidableRel (applyRoLe ro) := fun a b => by
  unfold applyRoLe
  infer_instance

instance (ro : List String) : IsTotal PageElement (applyRoLe ro) :=
  ⟨fun a b => @IsTotal.total (Nat × Nat) tupLe inferInstance
    (applySortKey ro a) (applySortKey ro b)⟩

instance (ro : List String) : IsTrans PageElement (applyRoLe ro) :=
  ⟨fun a b c hab hbc => @IsTrans.trans (Nat × Nat) tupLe inferInstance
    (applySortKey ro a) (applySortKey ro b) (applySortKey ro c) hab hbc⟩

/-- Model of PageXML.apply_reading_order: stable in-place sort of the
elements by the 3-band key (Python list.sort is a stable sort; so is
insertion sort with a total preorder). -/
def PageXML.apply_reading_order (p : PageXML) : PageXML :=
  { p with elements := List.insertionSort (applyRoLe p.reading_order) p.elements }

/-- Model of PageXML.create_reading_order: when the reading order is empty or
overwrite is set, rebuild it from the ids of the regions that have one. -/
def PageXML.create_reading_order (p : PageXML) (overwrite : Bool) : PageXML :=
  if p.reading_order.isEmpty || overwrite then
    { p with
      reading_order :=
        p.elements.filterMap (fun e =>
          if e.is_region = true then PageElement.getAttr e "id" else none) }
  else p

/-- Model of PageXML.clear_reading_order. -/
def PageXML.clear_reading_order (p : PageXML) : PageXML :=
  { p with reading_order := [] }

/-- Model of PageXML.set_reading_order: a non-empty list replaces the reading
order (optionally applying it); empty or None clears it. -/
def PageXML.set_reading_order (p : PageXML) (ro : Option (List String)) (sync : Bool) : PageXML :=
  match ro with
  | some l =>
      if l.isEmpty then PageXML.clear_reading_order p
      else
        let p' := { p with reading_order := l }
        if sync then PageXML.apply_reading_order p' else p'
  | none => PageXML.clear_reading_order p

/-! ## sort_reading_order (pagexml.py) -/

/-- Whitespace recognised by Python str.split(). -/
def isPySpace (c : Char) : Bool :=
  c = ' ' || c = '\t' || c = '\n' || c = '\r' || c = '\x0b' || c = '\x0c'

/-- Split a character list at every separator character, keeping empty
pieces (the behaviour of str.split(sep)). -/
def splitOnChar (sep : Char) : List Char → List (List Char)
  | [] => [[]]
  | c :: cs =>
      match splitOnChar sep cs with
      | h :: t => if c = sep then [] :: h :: t else (c :: h) :: t
      | [] => [[c]]

/-- Model of str.split() with no separator: split on whitespace runs and
drop empty pieces. -/
def splitWs (cs : List Char) : List (List Char) :=
  ((cs.splitOnP isPySpace).map (fun s => s)).filter (fun piece => !piece.isEmpty)

/-- Model of tuple(map(int, xy.split(','))): every comma-separated component
must parse as an integer. -/
def parsePoint (cs : List Char) : Option (List Int) :=
  (splitOnChar ',' cs).mapM parseIntChars

/-- Model of the points parse in sort_reading_order's key function. -/
def parsePoints (s : String) : Option (List (List Int)) :=
  (splitWs s.data).mapM parsePoint

/-- Sort key of one element in sort_reading_order.  Exact rational arithmetic
replaces Python's float division in the centroid case; minimum and maximum
are integer computations in both.  `none` models the ValueError /
IndexError / ZeroDivisionError cases that would abort the Python sort. -/
def sortRoKey (base direction : String) (e : PageElement) : Option (Nat × Rat) :=
  if e.is_region = false then some (0, 0)
  else
    match PageElement.find_coords e with
    | some coords =>
        if coords.hasAttr "points" then
          match parsePoints ((PageElement.getAttr coords "points").getD "") with
          | some pts =>
              let axis : Nat :=
                if direction = "top-bottom" ∨ direction = "bottom-top" then 1 else 0
              match pts.mapM (fun pnt => pnt.get? axis) with
              | some vals =>
                  let key? : Option Rat :=
                    if base = "minimum" then (vals.min?).map (fun v => (v : Rat))
                    else if base = "maximum" then (vals.max?).map (fun v => (v : Rat))
                    else if vals.length = 0 then none
                    else some (Rat.divInt vals.sum (vals.length : Int))
                  match key? with
                  | some key =>
                      if direction = "bottom-top" ∨ direction = "right-left" then
                        some (1, -key)
                      else some (1, key)
                  | none => none
              | none => none
          | none => none
        else some (2, 0)
    | none => some (2, 0)

/-- Ordering of (key, element) pairs during sort_reading_order. -/
def srKeyedLe (a b : (Nat × Rat) × PageElement) : Prop := tupLe a.1 b.1

instance : DecidableRel srKeyedLe := fun a b => by
  unfold srKeyedLe
  infer_instance

instance : IsTotal ((Nat × Rat) × PageElement) srKeyedLe :=
  ⟨fun a b => @IsTotal.total (Nat × Rat) tupLe inferInstance a.1 b.1⟩

instance : IsTrans ((Nat × Rat) × PageElement) srKeyedLe :=
  ⟨fun a b c hab hbc => @IsTrans.trans (Nat × Rat) tupLe inferInstance a.1 b.1 c.1 hab hbc⟩

/-- Model of PageXML.sort_reading_order: compute every element's key (any key
failure aborts), sort the elements stably by key, rebuild the reading order
from the ids of the regions in the new order, then optionally apply it. -/
def PageXML.sort_reading_order (p : PageXML) (base direction : String) (sync : Bool) :
    Option PageXML :=
  match p.elements.mapM (fun e => (sortRoKey base direction e).map (fun k => (k, e))) with
  | none => none
  | some keyed =>
      let sorted := (List.insertionSort srKeyedLe keyed).map (fun pr => pr.2)
      let ro := sorted.filterMap (fun e =>
        if e.is_region = true then PageElement.getAttr e "id" else none)
      let p' := { p with elements := sorted, reading_order := ro }
      some (if sync then PageXML.apply_reading_order p' else p')

/-! ## height / width setters (pagexml.py) -/

/-- Model of int(value) on the `Union[str, int]` accepted by the setters. -/
def pyToInt : Int ⊕ String → Option Int
  | .inl i => some i
  | .inr s => parseInt s

/-- Model of the height property setter: int(value) clamped below at 0
(`max(0, value)`); a non-numeric string raises ValueError (none). -/
def PageXML.set_height (p : PageXML) (v : Int ⊕ String) : Option PageXML :=
  (pyToInt v).map (fun n => { p with height := (max 0 n).toNat })

/-- Model of the width property setter, identical to the height setter. -/
def PageXML.set_width (p : PageXML) (v : Int ⊕ String) : Option PageXML :=
  (pyToInt v).map (fun n => { p with width := (max 0 n).toNat })

/-! ## PageXML.from_etree / to_etree (pagexml.py) -/

/-- Model of int() applied to an optional attribute value: absence raises
TypeError, a non-numeric value ValueError. -/
def pyIntAttr : Option String → Except String Int
  | none => .error "int() argument must be a string or a number, not NoneType"
  | some s =>
      match parseInt s with
      | some v => .ok v
      | none => .error ("invalid literal for int() with base 10: " ++ s)

mutual
/-- Descendants with tag RegionRefIndexed, in document order: the model of
ro.findall(".//{*}RegionRefIndexed"). -/
def descendantsRRI (t : XTree) : List XTree :=
  match t with
  | .mk _ _ _ children => descendantsRRIList children
def descendantsRRIList : List XTree → List XTree
  | [] => []
  | c :: cs =>
      (if c.tag = "RegionRefIndexed" then [c] else []) ++
      descendantsRRI c ++ descendantsRRIList cs
end

/-- Pair every RegionRefIndexed entry with int(index); int() of a missing or
non-numeric index attribute raises, aborting the parse. -/
def keyRriEntries : List XTree → Except String (List (Int × XTree))
  | [] => .ok []
  | t :: ts =>
      match pyIntAttr (t.get "index") with
      | .ok k =>
          match keyRriEntries ts with
          | .ok rest => .ok ((k, t) :: rest)
          | .error msg => .error msg
      | .error msg => .error msg

/-- Ordering of (index, entry) pairs: sorted(key=lambda x: int(x.get("index"))). -/
def rriLe (a b : Int × XTree) : Prop := a.1 ≤ b.1

instance : DecidableRel rriLe := fun a b => Int.decLe a.1 b.1

instance : IsTotal (Int × XTree) rriLe := ⟨fun a b => Int.le_total a.1 b.1⟩

instance : IsTrans (Int × XTree) rriLe := ⟨fun _ _ _ => Int.le_trans⟩

/-- Read the regionRef attribute of every (sorted) entry.  The source would
silently store a Python None for a missing regionRef; the List-String model
of the reading order cannot hold a null, so that corner is modelled as an
error (no claim exercises it). -/
def extractRegionRefs : List (Int × XTree) → Except String (List String)
  | [] => .ok []
  | pr :: rest =>
      match pr.2.get "regionRef" with
      | some r =>
          match extractRegionRefs rest with
          | .ok rs => .ok (r :: rs)
          | .error msg => .error msg
      | none => .error "RegionRefIndexed without regionRef (source would store a null id)"

/-- Convert the remaining Page children one by one and append each through
set_element with ro=False, exactly as the parse loop does. -/
def addParsedChildren (p : PageXML) : List XTree → Except String PageXML
  | [] => .ok p
  | t :: ts =>
      match PageElement.from_etree t with
      | .ok e =>
          match PageXML.set_element p e none false with
          | .ok p' => addParsedChildren p' ts
          | .error msg => .error msg
      | .error msg => .error msg

/-- The document built by the PageXML constructor call inside from_etree:
Page attributes with the image attributes split off (int(h)/int(w) clamped
at 0), the optional Metadata fields with their defaults (`now` stands for
the current-time default), and empty reading order and elements. -/
def parseBase (tree page : XTree) (now fn : String) (h w : Int) : PageXML :=
  let md := findChild tree "Metadata"
  let creator := (md.bind (fun m => findChild m "Creator")).bind XTree.text
  let created := (md.bind (fun m => findChild m "Created")).bind XTree.text
  let lastChange := (md.bind (fun m => findChild m "LastChange")).bind XTree.text
  { creator := creator.getD "pypxml"
    created := created.getD now
    last_change := lastChange.getD now
    filename := fn
    height := (max 0 h).toNat
    width := (max 0 w).toNat
    attributes := page.attrs.filter (fun kv =>
      !(kv.1 == "imageFilename" || kv.1 == "imageHeight" || kv.1 == "imageWidth"))
    reading_order := []
    elements := [] }

/-- Body of PageXML.from_etree on the found Page child (raise_on_error=True):
build the document (image attributes are mandatory: int(None) / a missing
filename raise), then reconstruct the reading order from the first
ReadingOrder child's RegionRefIndexed descendants sorted by int(index),
remove that subtree, and convert the remaining children with ro=False. -/
def PageXML.fromPage (tree page : XTree) (now : String) : Except String PageXML :=
  match pyIntAttr (page.get "imageHeight") with
  | .error msg => .error msg
  | .ok h =>
      match pyIntAttr (page.get "imageWidth") with
      | .error msg => .error msg
      | .ok w =>
          match page.get "imageFilename" with
          | none => .error "Expected a Path or string, got NoneType"
          | some fn =>
              match findChild page "ReadingOrder" with
              | some ro =>
                  match keyRriEntries (descendantsRRI ro) with
                  | .error msg => .error msg
                  | .ok keyed =>
                      match extractRegionRefs (List.insertionSort rriLe keyed) with
                      | .error msg => .error msg
                      | .ok refs =>
                          addParsedChildren
                            { parseBase tree page now fn h w with reading_order := refs }
                            (page.children.erase ro)
              | none => addParsedChildren (parseBase tree page now fn h w) page.children

/-- Model of PageXML.from_etree (raise_on_error=True): find the Page child
(error if absent) and process it with fromPage above. -/
def PageXML.from_etree (tree : XTree) (now : String) : Except String PageXML :=
  match findChild tree "Page" with
  | none => .error "The passed etree object does not contain a Page element."
  | some page => PageXML.fromPage tree page now

/-- One serialized RegionRefIndexed entry: enumerate position as the index
attribute, the id as regionRef. -/
def mkRriEntry (pr : Nat × String) : XTree :=
  XTree.mk "RegionRefIndexed" [("index", natRepr pr.1), ("regionRef", pr.2)] none []

/-- The serialized ReadingOrder/OrderedGroup block: one RegionRefIndexed per
reading-order entry, index-numbered 0..n-1 in the list's current order. -/
def roBlockOf (ro : List String) : XTree :=
  XTree.mk "ReadingOrder" [] none
    [XTree.mk "OrderedGroup" [("id", "g0")] none (ro.enum.map mkRriEntry)]

/-- The serialized Metadata block; LastChange is refreshed to `now` by
to_etree before serialization. -/
def mdTreeOf (p : PageXML) (now : String) : XTree :=
  XTree.mk "Metadata" [] none
    [XTree.mk "Creator" [] (some p.creator) [],
     XTree.mk "Created" [] (some p.created) [],
     XTree.mk "LastChange" [] (some now) []]

/-- The serialized Page element in the successful case (no stored attribute
collides with the three explicit image keyword arguments; to_etree below
raises on a collision): image attributes first, then the stored attributes;
children are the ReadingOrder block (only when the reading order is
non-empty) followed by the serialized elements. -/
def pageTreeOf (p : PageXML) : XTree :=
  XTree.mk "Page"
    ([("imageFilename", p.filename), ("imageWidth", natRepr p.width),
      ("imageHeight", natRepr p.height)] ++ p.attributes)
    none
    ((if p.reading_order.length > 0 then [roBlockOf p.reading_order] else []) ++
      to_etree_list p.elements)

/-- Model of PageXML.to_etree: root PcGts element with the schema location,
containing the Metadata block and the Page element.  The source builds the
Page element as etree.Element("Page", imageFilename=..., imageWidth=...,
imageHeight=..., **attributes), so a stored attribute keyed
imageFilename/imageHeight/imageWidth collides with an explicit keyword
argument and raises TypeError; serialization fails in that case. -/
def PageXML.to_etree (p : PageXML) (schemaLocation : String) (now : String) :
    Except String XTree :=
  if p.attributes.all (fun kv =>
      !(kv.1 == "imageFilename" || kv.1 == "imageHeight" || kv.1 == "imageWidth")) then
    .ok (XTree.mk "PcGts" [("xsi:schemaLocation", schemaLocation)] none
      [mdTreeOf p now, pageTreeOf p])
  else
    .error "Element() got multiple values for keyword argument"

/-- The (index, regionRef) attribute pairs of the RegionRefIndexed entries
under the first ReadingOrder child of the Page element of a serialized
tree — the observable reading-order block of a document tree. -/
def rriIndexValues (tree : XTree) : Option (List (Option String × Option String)) :=
  (findChild tree "Page").bind (fun page =>
    (findChild page "ReadingOrder").map (fun ro =>
      (descendantsRRI ro).map (fun t => (t.get "index", t.get "regionRef"))))

/-! ## Operation sequences over a document (for the consistency invariant) -/

/-- One public mutating call: create_element, set_element or delete_element. -/
inductive PageOp where
  | create (pagetype : PageType) (index : Option Int) (attrs : List (String × String))
  | set (element : PageElement) (index : Option Int) (ro : Bool)
  | delete (element : PageElement)

/-- Run one call; a call that raises leaves the document unchanged (the
raise happens before any mutation in the source). -/
def applyOp (p : PageXML) (op : PageOp) : PageXML :=
  match op with
  | .create pt idx attrs =>
      match PageXML.create_element p pt idx attrs with
      | .ok pr => pr.1
      | .error _ => p
  | .set e idx ro =>
      match PageXML.set_element p e idx ro with
      | .ok p' => p'
      | .error _ => p
  | .delete e => (PageXML.delete_element p e).1

/-- Run a finite sequence of calls. -/
def applyOps (p : PageXML) (ops : List PageOp) : PageXML :=
  ops.foldl applyOp p

/-- The reading-order consistency invariant: every id in the reading order is
the id attribute of some currently-present region element, and no id occurs
twice. -/
def readingOrderConsistent (p : PageXML) : Prop :=
  (∀ s ∈ p.reading_order,
     ∃ e ∈ p.elements, e.is_region = true ∧ PageElement.getAttr e "id" = some s) ∧
  p.reading_order.Nodup

instance (p : PageXML) : Decidable (readingOrderConsistent p) := by
  unfold readingOrderConsistent
  infer_instance

/-! ## Auxiliary definitions used by the theorems -/

/-- Stable sort by a natural-number key (insertion sort with a total
preorder is the stable sort, the behaviour of Python list.sort). -/
def sortByKey {α : Type} (k : α → Nat) (l : List α) : List α :=
  List.insertionSort (fun a b => k a ≤ k b) l

/-- Reading-order position of an element: the position of its id attribute
in the order dict built by apply_reading_order (none when the element has no
id or the id is not in the reading order). -/
def roPosOf (ro : List String) (e : PageElement) : Option Nat :=
  match PageElement.getAttr e "id" with
  | some s => roOrderPos ro s
  | none => none

/-- Natural-number encoding of apply_reading_order's 3-band tuple key:
(0,0) becomes 0, (1,i) becomes i+1, (2,0) becomes length+1.  Order-isomorphic
to the tuple order because every position i is below the length. -/
def applyKeyNat (ro : List String) (e : PageElement) : Nat :=
  match applySortKey ro e with
  | (0, _) => 0
  | (1, i) => i + 1
  | _ => ro.length + 1

/-! ## Concrete inputs used by witnesses and counterexamples -/

/-- An empty document with the mandatory constructor fields filled in. -/
def baseDoc : PageXML :=
  { creator := "pypxml", created := "t0", last_change := "t0",
    filename := "img.png", height := 100, width := 100,
    attributes := [], reading_order := [], elements := [] }

def regionR1 : PageElement := PageElement.mk .TextRegion [("id", "r1")] none []

def regionR2 : PageElement := PageElement.mk .TextRegion [("id", "r2")] none []

/-- A small call sequence: two reading-order inserts, a duplicate-id insert
that fails, a delete. -/
def c1ops : List PageOp :=
  [.create .TextRegion none [("id", "r1")],
   .set regionR2 (some 0) true,
   .set regionR1 none true,
   .delete regionR1,
   .set (PageElement.mk .AlternativeImage [] none []) none true]

/-- Document whose reading order already contains "r1". -/
def c3doc : PageXML := { baseDoc with reading_order := ["r1"], elements := [regionR1] }

/-- Document whose reading order contains the empty string, reached through
the public API: set_reading_order does not validate the ids it is given. -/
def c3ceDoc : PageXML := PageXML.set_reading_order baseDoc (some [""]) false

/-- A region element whose id attribute is the empty string. -/
def c3ceElem : PageElement := PageElement.mk .TextRegion [("id", "")] none []

/-- The C4 scenario, step by step: create a region with id "r1" and the
reading-order flag on, twice. -/
def c4d1 : PageXML := applyOp baseDoc (.create .TextRegion none [("id", "r1")])

def c4second : Except String (PageXML × PageElement) :=
  PageXML.create_element c4d1 .TextRegion none [("id", "r1")]

def c4d2 : PageXML := applyOp c4d1 (.create .TextRegion none [("id", "r1")])

/-- Round-trip witness document: one region, a non-empty reading order, one
custom Page attribute. -/
def c2doc : PageXML :=
  { baseDoc with
    attributes := [("type", "page")]
    reading_order := ["r1"]
    elements := [regionR1] }

/-- Round-trip counterexample document: empty reading order but a top-level
element of type ReadingOrder containing a RegionRefIndexed child. -/
def c2ceDoc : PageXML :=
  { baseDoc with
    elements := [PageElement.mk .ReadingOrder [] none
      [PageElement.mk .RegionRefIndexed [("index", "0"), ("regionRef", "x")] none []]] }

/-- Parse witness input: a Page with a ReadingOrder subtree whose
RegionRefIndexed entries appear with out-of-order index attributes 2,0,1. -/
def c5page : XTree :=
  XTree.mk "Page"
    [("imageFilename", "f.png"), ("imageHeight", "10"), ("imageWidth", "10")] none
    [XTree.mk "ReadingOrder" [] none
      [XTree.mk "OrderedGroup" [("id", "g0")] none
        [XTree.mk "RegionRefIndexed" [("index", "2"), ("regionRef", "a")] none [],
         XTree.mk "RegionRefIndexed" [("index", "0"), ("regionRef", "b")] none [],
         XTree.mk "RegionRefIndexed" [("index", "1"), ("regionRef", "c")] none []]],
     XTree.mk "TextRegion" [("id", "a")] none []]

def c5tree : XTree := XTree.mk "PcGts" [] none [c5page]

def c5ro : XTree :=
  XTree.mk "ReadingOrder" [] none
    [XTree.mk "OrderedGroup" [("id", "g0")] none
      [XTree.mk "RegionRefIndexed" [("index", "2"), ("regionRef", "a")] none [],
       XTree.mk "RegionRefIndexed" [("index", "0"), ("regionRef", "b")] none [],
       XTree.mk "RegionRefIndexed" [("index", "1"), ("regionRef", "c")] none []]]

def c5keyed : List (Int × XTree) :=
  [(2, XTree.mk "RegionRefIndexed" [("index", "2"), ("regionRef", "a")] none []),
   (0, XTree.mk "RegionRefIndexed" [("index", "0"), ("regionRef", "b")] none []),
   (1, XTree.mk "RegionRefIndexed" [("index", "1"), ("regionRef", "c")] none [])]

/-- The parse result of c5tree. -/
def c5parsed : PageXML :=
  { creator := "pypxml", created := "now", last_change := "now",
    filename := "f.png", height := 10, width := 10, attributes := [],
    reading_order := ["b", "c", "a"],
    elements := [PageElement.mk .TextRegion [("id", "a")] none []] }

/-- Three regions with Coords y-ranges [100,200], [300,400], [10,50]. -/
def regYA : PageElement :=
  PageElement.mk .TextRegion [("id", "rA")] none
    [PageElement.mk .Coords [("points", "0,100 0,200")] none []]

def regYB : PageElement :=
  PageElement.mk .TextRegion [("id", "rB")] none
    [PageElement.mk .Coords [("points", "0,300 0,400")] none []]

def regYC : PageElement :=
  PageElement.mk .TextRegion [("id", "rC")] none
    [PageElement.mk .Coords [("points", "0,10 0,50")] none []]

def c8doc : PageXML :=
  { baseDoc with height := 500, width := 500, elements := [regYA, regYB, regYC] }

/-- The (key, element) pairs computed for c8doc with reference=minimum,
direction=top-bottom. -/
def c8keyed : List ((Nat × Rat) × PageElement) :=
  [((1, (100 : Rat)), regYA), ((1, (300 : Rat)), regYB), ((1, (10 : Rat)), regYC)]

/-- A TextLine with two TextEquiv children: index=1 with text "B", and no
index attribute with text "A". -/
def c9line : PageElement :=
  PageElement.mk .TextLine [] none
    [PageElement.mk .TextEquiv [("index", "1")] none
       [PageElement.mk .Unicode [] (some "B") []],
     PageElement.mk .TextEquiv [] none
       [PageElement.mk .Unicode [] (some "A") []]]

def c9keyed : List (Int × PageElement) :=
  [(1, PageElement.mk .TextEquiv [("index", "1")] none
        [PageElement.mk .Unicode [] (some "B") []]),
   (-1, PageElement.mk .TextEquiv [] none
        [PageElement.mk .Unicode [] (some "A") []])]

/-! ## Helper lemmas: decimal round trip -/

theorem charDigit_digitChar (d : Nat) (h : d < 10) : charDigit (digitChar d) = some d := by
  interval_cases d <;> decide

theorem digitChar_ne_sign (d : Nat) : digitChar d ≠ '-' ∧ digitChar d ≠ '+' := by
  unfold digitChar
  split <;> exact ⟨by decide, by decide⟩

theorem natDigits_lt10 : ∀ fuel n d, d ∈ natDigits fuel n → d < 10 := by
  intro fuel
  induction fuel with
  | zero => intro n d hd; cases hd
  | succ fuel ih =>
      intro n d hd
      unfold natDigits at hd
      by_cases h : n < 10
      · rw [if_pos h] at hd
        simp only [List.mem_singleton] at hd
        omega
      · rw [if_neg h] at hd
        rcases List.mem_append.mp hd with h1 | h1
        · exact ih _ _ h1
        · simp only [List.mem_singleton] at h1
          subst h1
          exact Nat.mod_lt _ (by omega)

theorem natDigits_ne_nil (fuel n : Nat) (h : 0 < fuel) : natDigits fuel n ≠ [] := by
  cases fuel with
  | zero => omega
  | succ fuel =>
      unfold natDigits
      split
      · simp
      · simp

theorem foldDigits_append (acc : Option Nat) (A B : List Char) :
    foldDigits acc (A ++ B) = foldDigits (foldDigits acc A) B := by
  induction A generalizing acc with
  | nil => rfl
  | cons c A ih =>
      simp only [List.cons_append, foldDigits]
      exact ih _

theorem foldDigits_natDigits : ∀ fuel n acc, n < fuel →
    foldDigits (some acc) ((natDigits fuel n).map digitChar) =
      some (acc * 10 ^ (natDigits fuel n).length + n) := by
  intro fuel
  induction fuel with
  | zero => intro n acc h; omega
  | succ fuel ih =>
      intro n acc h
      by_cases h10 : n < 10
      · unfold natDigits
        rw [if_pos h10]
        have hc := charDigit_digitChar n h10
        simp [foldDigits, hc]
      · unfold natDigits
        rw [if_neg h10]
        rw [List.map_append, foldDigits_append]
        have hdiv : n / 10 < fuel := by
          have hlt : n / 10 < n := Nat.div_lt_self (by omega) (by omega)
          omega
        rw [ih (n / 10) acc hdiv]
        have hm := charDigit_digitChar (n % 10) (Nat.mod_lt _ (by omega))
        have hstep : foldDigits (some (acc * 10 ^ (natDigits fuel (n / 10)).length + n / 10))
            (List.map digitChar [n % 10]) =
            some ((acc * 10 ^ (natDigits fuel (n / 10)).length + n / 10) * 10 + n % 10) := by
          simp [foldDigits, hm]
        rw [hstep]
        have hlen : (natDigits fuel (n / 10) ++ [n % 10]).length =
            (natDigits fuel (n / 10)).length + 1 := by simp
        rw [hlen]
        congr 1
        have key : ∀ m : Nat, (m + n / 10) * 10 + n % 10 = m * 10 + n := by
          intro m
          omega
        rw [key (acc * 10 ^ (natDigits fuel (n / 10)).length), pow_succ]
        ring

theorem parseInt_natRepr (n : Nat) : parseInt (natRepr n) = some (n : Int) := by
  unfold parseInt natRepr
  obtain ⟨d, ds, hds⟩ : ∃ d ds, natDigits (n + 1) n = d :: ds := by
    cases h : natDigits (n + 1) n with
    | nil => exact absurd h (natDigits_ne_nil _ _ (by omega))
    | cons d ds => exact ⟨d, ds, rfl⟩
  have hdata : (String.mk ((natDigits (n + 1) n).map digitChar)).data =
      (natDigits (n + 1) n).map digitChar := rfl
  rw [hdata, hds]
  simp only [List.map_cons]
  simp only [parseIntChars]
  rw [if_neg (digitChar_ne_sign d).1, if_neg (digitChar_ne_sign d).2]
  have hval : digitsVal (digitChar d :: List.map digitChar ds) = some n := by
    unfold digitsVal
    rw [if_neg (by simp)]
    have h2 := foldDigits_natDigits (n + 1) n 0 (by omega)
    rw [hds] at h2
    simpa using h2
  rw [hval]
  rfl

/-! ## Helper lemmas: Python list.insert -/

theorem listInsertPy_perm {α : Type} (l : List α) (i : Int) (x : α) :
    List.Perm (listInsertPy l i x) (x :: l) := by
  unfold listInsertPy
  refine List.Perm.trans List.perm_middle ?_
  rw [List.take_append_drop]

theorem mem_listInsertPy {α : Type} (a x : α) (l : List α) (i : Int) :
    a ∈ listInsertPy l i x ↔ a = x ∨ a ∈ l := by
  rw [(listInsertPy_perm l i x).mem_iff]
  simp

theorem nodup_listInsertPy {α : Type} (l : List α) (i : Int) (x : α)
    (hx : x ∉ l) (h : l.Nodup) : (listInsertPy l i x).Nodup := by
  rw [(listInsertPy_perm l i x).nodup_iff]
  exact List.nodup_cons.mpr ⟨hx, h⟩

theorem listInsertPy_length {α : Type} (l : List α) (x : α) :
    listInsertPy l (l.length : Int) x = l ++ [x] := by
  have h1 : ¬ ((l.length : Int) < 0) := by
    simp
  simp only [listInsertPy]
  rw [if_neg h1]
  simp

theorem set_element_ro_false (p : PageXML) (e : PageElement) :
    PageXML.set_element p e none false = .ok { p with elements := p.elements ++ [e] } := by
  unfold PageXML.set_element
  simp [listInsertPy_length]

/-! ## Helper lemmas: stable sorting by a natural-number key -/

theorem flatMap_congr_mem {α β : Type} {l : List α} {f g : α → List β}
    (h : ∀ a ∈ l, f a = g a) : l.flatMap f = l.flatMap g := by
  induction l with
  | nil => rfl
  | cons a l ih =>
      simp only [List.flatMap_cons]
      rw [h a (List.mem_cons_self a l), ih (fun b hb => h b (List.mem_cons_of_mem a hb))]

theorem orderedInsert_key_append {α : Type} (k : α → Nat) (x : α) (A B : List α)
    (hA : ∀ y ∈ A, ¬ k x ≤ k y) :
    List.orderedInsert (fun a b => k a ≤ k b) x (A ++ B) =
      A ++ List.orderedInsert (fun a b => k a ≤ k b) x B := by
  induction A with
  | nil => simp
  | cons a A ih =>
      simp only [List.cons_append, List.orderedInsert]
      rw [if_neg (by simpa using hA a (List.mem_cons_self a A))]
      exact congrArg (a :: ·) (ih (fun y hy => hA y (List.mem_cons_of_mem a hy)))

theorem orderedInsert_key_all_ge {α : Type} (k : α → Nat) (x : α) (B : List α)
    (hB : ∀ y ∈ B, k x ≤ k y) :
    List.orderedInsert (fun a b => k a ≤ k b) x B = x :: B := by
  cases B with
  | nil => rfl
  | cons b B =>
      simp only [List.orderedInsert]
      rw [if_pos]
      simpa using hB b (List.mem_cons_self b B)

theorem sortByKey_classes {α : Type} (k : α → Nat) (bound : Nat) (l : List α)
    (h : ∀ e ∈ l, k e < bound) :
    sortByKey k l = (List.range bound).flatMap (fun v => l.filter (fun e => k e == v)) := by
  induction l with
  | nil => simp [sortByKey, List.insertionSort]
  | cons x l ih =>
      have hx := h x (List.mem_cons_self x l)
      have hl : ∀ e ∈ l, k e < bound := fun e he => h e (List.mem_cons_of_mem x he)
      have hsplit : List.range bound = List.range' 0 (k x) ++ List.range' (k x) (bound - k x) := by
        have h0 := List.range'_append 0 (k x) (bound - k x) 1
        simp only [Nat.zero_add, Nat.one_mul] at h0
        have h1 : List.range' 0 (bound - k x + k x) = List.range' 0 bound := by
          congr 1
          omega
        rw [List.range_eq_range']
        exact (h0.trans h1).symm
      have step : sortByKey k (x :: l) =
          List.orderedInsert (fun a b => k a ≤ k b) x (sortByKey k l) := rfl
      rw [step, ih hl, hsplit, List.flatMap_append, List.flatMap_append]
      have hA : ∀ y ∈ (List.range' 0 (k x)).flatMap (fun v => l.filter (fun e => k e == v)),
          ¬ k x ≤ k y := by
        intro y hy
        rw [List.mem_flatMap] at hy
        obtain ⟨v, hv, hyv⟩ := hy
        rw [List.mem_range'] at hv
        have hky : k y = v := by simpa using List.of_mem_filter hyv
        omega
      have hB : ∀ y ∈ (List.range' (k x) (bound - k x)).flatMap
          (fun v => l.filter (fun e => k e == v)), k x ≤ k y := by
        intro y hy
        rw [List.mem_flatMap] at hy
        obtain ⟨v, hv, hyv⟩ := hy
        rw [List.mem_range'] at hv
        have hky : k y = v := by simpa using List.of_mem_filter hyv
        omega
      rw [orderedInsert_key_append k x _ _ hA, orderedInsert_key_all_ge k x _ hB]
      have hlow : (List.range' 0 (k x)).flatMap (fun v => l.filter (fun e => k e == v)) =
          (List.range' 0 (k x)).flatMap (fun v => (x :: l).filter (fun e => k e == v)) := by
        apply flatMap_congr_mem
        intro v hv
        rw [List.mem_range'] at hv
        rw [List.filter_cons]
        have hne : (k x == v) = false := by
          simp only [beq_eq_false_iff_ne, ne_eq]
          omega
        simp [hne]
      have hhicons : List.range' (k x) (bound - k x) =
          k x :: List.range' (k x + 1) (bound - k x - 1) := by
        obtain ⟨m, hm⟩ : ∃ m, bound - k x = m + 1 := ⟨bound - k x - 1, by omega⟩
        rw [hm]
        simp [List.range'_succ]
      have hhigh : x :: (List.range' (k x) (bound - k x)).flatMap
            (fun v => l.filter (fun e => k e == v)) =
          (List.range' (k x) (bound - k x)).flatMap
            (fun v => (x :: l).filter (fun e => k e == v)) := by
        rw [hhicons]
        simp only [List.flatMap_cons]
        rw [List.filter_cons]
        have hkx : (k x == k x) = true := by simp
        simp only [hkx, if_pos]
        have hrest : (List.range' (k x + 1) (bound - k x - 1)).flatMap
              (fun v => l.filter (fun e => k e == v)) =
            (List.range' (k x + 1) (bound - k x - 1)).flatMap
              (fun v => (x :: l).filter (fun e => k e == v)) := by
          apply flatMap_congr_mem
          intro v hv
          rw [List.mem_range'] at hv
          rw [List.filter_cons]
          have hne : (k x == v) = false := by
            simp only [beq_eq_false_iff_ne, ne_eq]
            omega
          simp [hne]
        rw [← hrest]
        simp
      rw [hlow, hhigh]

theorem flatMap_classes_filter {α : Type} (k : α → Nat) (l : List α) (L : List Nat) (v : Nat)
    (hnd : L.Nodup) (hv : v ∈ L) :
    (L.flatMap (fun u => l.filter (fun e => k e == u))).filter (fun e => k e == v) =
      l.filter (fun e => k e == v) := by
  induction L with
  | nil => cases hv
  | cons u L ih =>
      rw [List.flatMap_cons, List.filter_append]
      have hnotin : u ∉ L := (List.nodup_cons.mp hnd).1
      have hndL : L.Nodup := (List.nodup_cons.mp hnd).2
      rcases List.mem_cons.mp hv with h | h
      · subst h
        have h1 : (l.filter (fun e => k e == v)).filter (fun e => k e == v) =
            l.filter (fun e => k e == v) := by
          rw [List.filter_filter]
          simp
        have h2 : (L.flatMap (fun w => l.filter (fun e => k e == w))).filter
            (fun e => k e == v) = [] := by
          rw [List.filter_eq_nil_iff]
          intro a ha
          rw [List.mem_flatMap] at ha
          obtain ⟨w, hw, haw⟩ := ha
          have hkw : k a = w := by simpa using List.of_mem_filter haw
          simp only [beq_iff_eq, hkw]
          intro h'
          exact hnotin (h' ▸ hw)
        rw [h1, h2, List.append_nil]
      · have huv : u ≠ v := fun he => hnotin (he ▸ h)
        have h1 : (l.filter (fun e => k e == u)).filter (fun e => k e == v) = [] := by
          rw [List.filter_eq_nil_iff]
          intro a ha
          have hku : k a = u := by simpa using List.of_mem_filter ha
          simp [hku, huv]
        rw [h1, List.nil_append]
        exact ih hndL h

theorem orderedInsert_rel_congr {α : Type} (r s : α → α → Prop)
    [DecidableRel r] [DecidableRel s] (h : ∀ a b, r a b ↔ s a b) (x : α) :
    ∀ l, List.orderedInsert r x l = List.orderedInsert s x l
  | [] => rfl
  | b :: l => by
      simp only [List.orderedInsert]
      by_cases hr : r x b
      · rw [if_pos hr, if_pos ((h x b).mp hr)]
      · rw [if_neg hr, if_neg (fun hs => hr ((h x b).mpr hs)),
          orderedInsert_rel_congr r s h x l]

theorem insertionSort_rel_congr {α : Type} (r s : α → α → Prop)
    [DecidableRel r] [DecidableRel s] (h : ∀ a b, r a b ↔ s a b) :
    ∀ l, List.insertionSort r l = List.insertionSort s l
  | [] => rfl
  | x :: l => by
      simp only [List.insertionSort]
      rw [insertionSort_rel_congr r s h l, orderedInsert_rel_congr r s h x _]

/-! ## Helper lemmas: find_by_type depth semantics -/

theorem find_by_type_list_zero (pagetypes : List PageType) (attrs : List (String × String)) :
    ∀ l, find_by_type_list pagetypes 0 attrs l =
      l.filter (fun e => matchesFilter e pagetypes attrs)
  | [] => rfl
  | e :: es => by
      have h0 : ¬ ((0 : Int) ≠ 0) := by simp
      simp only [find_by_type_list, if_neg h0, List.nil_append]
      rw [find_by_type_list_zero pagetypes attrs es, List.filter_cons]
      cases hm : matchesFilter e pagetypes attrs <;> simp [hm]

theorem find_by_type_list_zero_sublist (pagetypes : List PageType)
    (attrs : List (String × String)) :
    ∀ l, List.Sublist (find_by_type_list pagetypes 0 attrs l)
      (find_by_type_list pagetypes (-1) attrs l)
  | [] => List.Sublist.refl _
  | e :: es => by
      have h0 : ¬ ((0 : Int) ≠ 0) := by simp
      have h1 : ((-1 : Int) ≠ 0) := by decide
      simp only [find_by_type_list, if_neg h0, if_pos h1]
      rw [List.append_assoc, List.append_assoc]
      refine List.Sublist.append_left ?_ _
      rw [List.nil_append]
      exact (find_by_type_list_zero_sublist pagetypes attrs es).trans
        (List.sublist_append_right _ _)

/-- C6: depth-bounded search.  find_by_type with depth=0 returns exactly the
matching direct children (as a filter, for the list worker, the PageElement
method and the PageXML method); for depth n+1 > 0 and for depth -1 the scan
recurses into each child with depth max(-1, depth-1), concatenating results;
and the depth=0 result is a sublist of the depth=-1 result. -/
theorem c6_find_by_type_depth :
    (∀ (pagetypes : List PageType) (attrs : List (String × String)) (l : List PageElement),
        find_by_type_list pagetypes 0 attrs l =
          l.filter (fun e => matchesFilter e pagetypes attrs))
    ∧ (∀ (e : PageElement) (pagetypes : List PageType) (attrs : List (String × String)),
        PageElement.find_by_type e pagetypes 0 attrs =
          e.elements.filter (fun c => matchesFilter c pagetypes attrs))
    ∧ (∀ (p : PageXML) (pagetypes : List PageType) (attrs : List (String × String)),
        PageXML.find_by_type p pagetypes 0 attrs =
          p.elements.filter (fun c => matchesFilter c pagetypes attrs))
    ∧ (∀ (pagetypes : List PageType) (attrs : List (String × String))
        (e : PageElement) (es : List PageElement) (n : Nat),
        find_by_type_list pagetypes ((n : Int) + 1) attrs (e :: es) =
          (if matchesFilter e pagetypes attrs then [e] else []) ++
          PageElement.find_by_type e pagetypes (max (-1) (((n : Int) + 1) - 1)) attrs ++
          find_by_type_list pagetypes ((n : Int) + 1) attrs es)
    ∧ (∀ (pagetypes : List PageType) (attrs : List (String × String))
        (e : PageElement) (es : List PageElement),
        find_by_type_list pagetypes (-1) attrs (e :: es) =
          (if matchesFilter e pagetypes attrs then [e] else []) ++
          PageElement.find_by_type e pagetypes (max (-1) ((-1 : Int) - 1)) attrs ++
          find_by_type_list pagetypes (-1) attrs es)
    ∧ (∀ (pagetypes : List PageType) (attrs : List (String × String)) (l : List PageElement),
        List.Sublist (find_by_type_list pagetypes 0 attrs l)
          (find_by_type_list pagetypes (-1) attrs l))
    ∧ (∀ (e : PageElement) (pagetypes : List PageType) (attrs : List (String × String)),
        List.Sublist (PageElement.find_by_type e pagetypes 0 attrs)
          (PageElement.find_by_type e pagetypes (-1) attrs))
    ∧ (∀ (p : PageXML) (pagetypes : List PageType) (attrs : List (String × String)),
        List.Sublist (PageXML.find_by_type p pagetypes 0 attrs)
          (PageXML.find_by_type p pagetypes (-1) attrs)) := by
  refine ⟨find_by_type_list_zero, ?_, ?_, ?_, ?_, find_by_type_list_zero_sublist, ?_, ?_⟩
  · intro e pagetypes attrs
    cases e with
    | mk pt a x els =>
        simp only [PageElement.find_by_type, PageElement.elements]
        exact find_by_type_list_zero pagetypes attrs els
  · intro p pagetypes attrs
    exact find_by_type_list_zero pagetypes attrs p.elements
  · intro pagetypes attrs e es n
    have h1 : ((n : Int) + 1 ≠ 0) := by omega
    simp only [find_by_type_list, if_pos h1]
  · intro pagetypes attrs e es
    have h1 : ((-1 : Int) ≠ 0) := by decide
    simp only [find_by_type_list, if_pos h1]
  · intro e pagetypes attrs
    cases e with
    | mk pt a x els =>
        simp only [PageElement.find_by_type]
        exact find_by_type_list_zero_sublist pagetypes attrs els
  · intro p pagetypes attrs
    exact find_by_type_list_zero_sublist pagetypes attrs p.elements

/-! ## Helper lemmas: reading-order consistency -/

theorem set_element_ok_preserves (p p' : PageXML) (e : PageElement) (idx : Option Int)
    (ro : Bool) (h : readingOrderConsistent p)
    (hs : PageXML.set_element p e idx ro = .ok p') : readingOrderConsistent p' := by
  unfold PageXML.set_element at hs
  by_cases hc : (ro && e.is_region && e.idTruthy) = true
  · rw [if_pos hc] at hs
    obtain ⟨s, hgs, hsne⟩ : ∃ s, PageElement.getAttr e "id" = some s ∧ s ≠ "" := by
      have ht : e.idTruthy = true := by
        simp only [Bool.and_eq_true] at hc
        exact hc.2
      unfold PageElement.idTruthy at ht
      cases hg : PageElement.getAttr e "id" with
      | none => rw [hg] at ht; cases ht
      | some s =>
          rw [hg] at ht
          exact ⟨s, rfl, by simpa using ht⟩
    have hreg : e.is_region = true := by
      simp only [Bool.and_eq_true] at hc
      exact hc.1.2
    simp only [hgs, Option.getD_some] at hs
    by_cases hmem : s ∈ p.reading_order
    · rw [if_pos hmem] at hs
      cases hs
    · rw [if_neg hmem] at hs
      have hp' : p' = { p with
          reading_order :=
            listInsertPy p.reading_order (idx.getD (p.reading_order.length : Int)) s,
          elements := listInsertPy p.elements (idx.getD (p.elements.length : Int)) e } := by
        cases hs
        rfl
      subst hp'
      constructor
      · intro s' hs'
        rcases (mem_listInsertPy s' s p.reading_order _).mp hs' with h1 | h1
        · subst h1
          exact ⟨e, (mem_listInsertPy e e p.elements _).mpr (Or.inl rfl), hreg, hgs⟩
        · obtain ⟨e', he', hr, hid⟩ := h.1 s' h1
          exact ⟨e', (mem_listInsertPy e' e p.elements _).mpr (Or.inr he'), hr, hid⟩
      · exact nodup_listInsertPy _ _ _ hmem h.2
  · rw [if_neg hc] at hs
    have hp' : p' = { p with
        elements := listInsertPy p.elements (idx.getD (p.elements.length : Int)) e } := by
      cases hs
      rfl
    subst hp'
    constructor
    · intro s' hs'
      obtain ⟨e', he', hr, hid⟩ := h.1 s' hs'
      exact ⟨e', (mem_listInsertPy e' e p.elements _).mpr (Or.inr he'), hr, hid⟩
    · exact h.2

theorem delete_element_preserves (p : PageXML) (e : PageElement)
    (h : readingOrderConsistent p) :
    readingOrderConsistent (PageXML.delete_element p e).1 := by
  unfold PageXML.delete_element
  by_cases hin : e ∈ p.elements
  · rw [if_pos hin]
    cases hg : PageElement.getAttr e "id" with
    | some s =>
        by_cases hmem : s ∈ p.reading_order
        · simp only [hg, if_pos hmem]
          constructor
          · intro s' hs'
            have hs'mem : s' ∈ p.reading_order := List.mem_of_mem_erase hs'
            have hs'ne : s' ≠ s := by
              intro heq
              subst heq
              exact h.2.not_mem_erase hs'
            obtain ⟨e', he', hr, hid⟩ := h.1 s' hs'mem
            have he'ne : e' ≠ e := by
              intro heq
              subst heq
              rw [hg] at hid
              exact hs'ne (Option.some.inj hid).symm
            exact ⟨e', (List.mem_erase_of_ne he'ne).mpr he', hr, hid⟩
          · exact h.2.erase s
        · simp only [hg, if_neg hmem]
          constructor
          · intro s' hs'
            obtain ⟨e', he', hr, hid⟩ := h.1 s' hs'
            have he'ne : e' ≠ e := by
              intro heq
              subst heq
              rw [hg] at hid
              exact hmem ((Option.some.inj hid) ▸ hs')
            exact ⟨e', (List.mem_erase_of_ne he'ne).mpr he', hr, hid⟩
          · exact h.2
    | none =>
        simp only [hg]
        constructor
        · intro s' hs'
          obtain ⟨e', he', hr, hid⟩ := h.1 s' hs'
          have he'ne : e' ≠ e := by
            intro heq
            subst heq
            rw [hg] at hid
            cases hid
          exact ⟨e', (List.mem_erase_of_ne he'ne).mpr he', hr, hid⟩
        · exact h.2
  · rw [if_neg hin]
    exact h

theorem applyOp_preserves (p : PageXML) (op : PageOp) (h : readingOrderConsistent p) :
    readingOrderConsistent (applyOp p op) := by
  cases op with
  | create pt idx attrs =>
      unfold applyOp PageXML.create_element
      cases hs : PageXML.set_element p (PageElement.mk pt attrs none []) idx true with
      | ok p' =>
          simp only [hs]
          exact set_element_ok_preserves p p' _ idx true h hs
      | error msg => simp only [hs]; exact h
  | set e idx ro =>
      unfold applyOp
      cases hs : PageXML.set_element p e idx ro with
      | ok p' =>
          simp only [hs]
          exact set_element_ok_preserves p p' e idx ro h hs
      | error msg => simp only [hs]; exact h
  | delete e =>
      unfold applyOp
      exact delete_element_preserves p e h

/-- C1: reading-order consistency invariant.  Starting from any document
satisfying the invariant, any finite sequence of create_element, set_element
(any index and ro flag) and delete_element calls preserves it: every id in
reading_order is the id attribute of a present region element, and no id
occurs twice. -/
theorem c1_reading_order_consistency (p : PageXML) (ops : List PageOp)
    (h : readingOrderConsistent p) : readingOrderConsistent (applyOps p ops) := by
  induction ops generalizing p with
  | nil => exact h
  | cons op ops ih => exact ih (applyOp p op) (applyOp_preserves p op h)

/-- Witness for C1: a concrete document and call sequence (two inserts, a
failing duplicate insert, a delete, a non-region insert). -/
theorem c1_reading_order_consistency_witness :
    readingOrderConsistent baseDoc ∧ readingOrderConsistent (applyOps baseDoc c1ops) :=
  ⟨by decide, c1_reading_order_consistency baseDoc c1ops (by decide)⟩

/-- C3 (counterexample): the frozen claim fails for a region element whose
id attribute is the empty string.  set_reading_order can put "" into the
reading order without validation; a TextRegion with id="" then has its id
already present in reading_order, yet set_element with the reading-order
flag raises nothing: the falsy id makes the source skip the truthiness-gated
duplicate check (if ro and element.is_region and element["id"]), so the call
succeeds and inserts the element — it neither fails with DuplicateIdError
nor leaves the document unmodified. -/
theorem c3_empty_id_counterexample :
    c3ceDoc.reading_order = [""] ∧
    c3ceElem.is_region = true ∧
    PageElement.getAttr c3ceElem "id" = some "" ∧
    PageXML.set_element c3ceDoc c3ceElem none true =
      .ok { c3ceDoc with elements := [c3ceElem] } := by
  decide

/-- C3 (amended): duplicate-id rejection is atomic for truthy ids.  For a
region element whose id attribute is a non-empty string already in the
reading order, set_element with the reading-order flag raises ValueError
with the duplicate-id message, and the call leaves the document completely
unmodified (the raise precedes both insertions).  The non-emptiness
hypothesis is necessary: see the counterexample above. -/
theorem c3_duplicate_id_atomic (p : PageXML) (e : PageElement) (idx : Option Int) (s : String)
    (hreg : e.is_region = true) (hid : PageElement.getAttr e "id" = some s)
    (hne : s ≠ "") (hmem : s ∈ p.reading_order) :
    PageXML.set_element p e idx true = .error ("id " ++ s ++ " is already in reading order")
    ∧ applyOp p (.set e idx true) = p := by
  have ht : e.idTruthy = true := by
    unfold PageElement.idTruthy
    rw [hid]
    simpa using hne
  have hc : (true && e.is_region && e.idTruthy) = true := by
    rw [hreg, ht]
    rfl
  have h1 : PageXML.set_element p e idx true =
      .error ("id " ++ s ++ " is already in reading order") := by
    unfold PageXML.set_element
    rw [if_pos hc]
    simp only [hid, Option.getD_some]
    rw [if_pos hmem]
  refine ⟨h1, ?_⟩
  unfold applyOp
  simp only [h1]

/-- Witness for C3: a document whose reading order holds "r1" and a region
with id "r1": the insert fails with the duplicate-id error and the document
is unchanged. -/
theorem c3_duplicate_id_atomic_witness :
    PageXML.set_element c3doc regionR1 none true =
      .error ("id " ++ "r1" ++ " is already in reading order")
    ∧ applyOp c3doc (.set regionR1 none true) = c3doc :=
  c3_duplicate_id_atomic c3doc regionR1 none "r1" (by decide) (by decide) (by decide)
    (by decide)

/-- C4 counterexample: creating a region with id "r1" and the reading-order
flag twice makes the second call fail, but the document does NOT still
contain both region elements — the second element is never inserted, so the
elements list has length 1, not 2 (the claim asserts both are present). -/
theorem c4_duplicate_example_counterexample :
    c4second = .error "id r1 is already in reading order"
    ∧ c4d2.elements.length = 1
    ∧ ¬ (c4d2.elements.length = 2)
    ∧ c4d2.reading_order = ["r1"] := by decide

/-- C4 amended: starting from an empty document, creating a region with id
"r1" twice (reading-order flag on) makes the second call fail with the
duplicate-id ValueError; afterwards the document contains only the first
region element (the second is constructed but never inserted) and
reading_order contains "r1" exactly once. -/
theorem c4_duplicate_example_amended :
    c4second = .error "id r1 is already in reading order"
    ∧ c4d2.elements = [PageElement.mk .TextRegion [("id", "r1")] none []]
    ∧ c4d2.reading_order = ["r1"] := by decide

/-- C10: image-dimension clamping.  For any integer or numeric-string value,
the height (resp. width) setter stores max(0, int(v)); the stored value is a
non-negative integer and any negative input is stored as 0. -/
theorem c10_dimension_clamping (p : PageXML) (v : Int ⊕ String) (i : Int)
    (h : pyToInt v = some i) :
    PageXML.set_height p v = some { p with height := (max 0 i).toNat }
    ∧ PageXML.set_width p v = some { p with width := (max 0 i).toNat }
    ∧ (((max 0 i).toNat : Int) = max 0 i)
    ∧ (i < 0 → (max 0 i).toNat = 0) := by
  refine ⟨?_, ?_, ?_, ?_⟩
  · unfold PageXML.set_height
    rw [h]
    rfl
  · unfold PageXML.set_width
    rw [h]
    rfl
  · omega
  · intro hneg
    omega

/-- Witness for C10: the numeric string "-7" parses to -7 and is clamped to
a stored height/width of 0. -/
theorem c10_dimension_clamping_witness :
    PageXML.set_height baseDoc (.inr "-7") = some { baseDoc with height := (max 0 (-7 : Int)).toNat }
    ∧ PageXML.set_width baseDoc (.inr "-7") = some { baseDoc with width := (max 0 (-7 : Int)).toNat }
    ∧ (((max 0 (-7 : Int)).toNat : Int) = max 0 (-7 : Int))
    ∧ ((-7 : Int) < 0 → (max 0 (-7 : Int)).toNat = 0) :=
  c10_dimension_clamping baseDoc (.inr "-7") (-7) (by decide)


/-! ## Helper lemmas: apply_reading_order -/

theorem roOrderPos_lt (ro : List String) (s : String) (i : Nat)
    (h : roOrderPos ro s = some i) : i < ro.length := by
  unfold roOrderPos at h
  cases hg : (ro.enum.filter (fun pr => pr.2 == s)).getLast? with
  | none => rw [hg] at h; cases h
  | some pr =>
      rw [hg] at h
      have hpr : pr ∈ ro.enum.filter (fun pr => pr.2 == s) := by
        obtain ⟨hne, heq⟩ := List.mem_getLast?_eq_getLast (Option.mem_def.mpr hg)
        rw [heq]
        exact List.getLast_mem hne
      have hmem : pr ∈ ro.enum := List.mem_of_mem_filter hpr
      have hlt : pr.1 < ro.length := by
        rw [List.mem_enum_iff_getElem?] at hmem
        exact (List.getElem?_eq_some.mp hmem).1
      have hi : pr.1 = i := by simpa using h
      omega

theorem applySortKey_cases (ro : List String) (e : PageElement) :
    (applySortKey ro e = (0, 0) ∧ e.is_region = false)
    ∨ (∃ i, applySortKey ro e = (1, i) ∧ i < ro.length ∧ e.is_region = true ∧
        roPosOf ro e = some i)
    ∨ (applySortKey ro e = (2, 0) ∧ e.is_region = true ∧ roPosOf ro e = none) := by
  by_cases hr : e.is_region = false
  · refine Or.inl ⟨?_, hr⟩
    unfold applySortKey
    rw [if_pos hr]
  · have hr' : e.is_region = true := by
      revert hr
      cases e.is_region <;> simp
    cases hg : PageElement.getAttr e "id" with
    | some s =>
        cases hp : roOrderPos ro s with
        | some i =>
            refine Or.inr (Or.inl ⟨i, ?_, roOrderPos_lt ro s i hp, hr', ?_⟩)
            · unfold applySortKey
              rw [if_neg hr]
              simp only [hg, hp]
            · simp [roPosOf, hg, hp]
        | none =>
            refine Or.inr (Or.inr ⟨?_, hr', ?_⟩)
            · unfold applySortKey
              rw [if_neg hr]
              simp only [hg, hp]
            · simp [roPosOf, hg, hp]
    | none =>
        refine Or.inr (Or.inr ⟨?_, hr', ?_⟩)
        · unfold applySortKey
          rw [if_neg hr]
          simp only [hg]
        · simp [roPosOf, hg]

theorem applyKeyNat_eq_band0 (ro : List String) (e : PageElement)
    (h : applySortKey ro e = (0, 0)) : applyKeyNat ro e = 0 := by
  unfold applyKeyNat
  rw [h]

theorem applyKeyNat_eq_band1 (ro : List String) (e : PageElement) (i : Nat)
    (h : applySortKey ro e = (1, i)) : applyKeyNat ro e = i + 1 := by
  unfold applyKeyNat
  rw [h]

theorem applyKeyNat_eq_band2 (ro : List String) (e : PageElement)
    (h : applySortKey ro e = (2, 0)) : applyKeyNat ro e = ro.length + 1 := by
  unfold applyKeyNat
  rw [h]

theorem applyKeyNat_lt (ro : List String) (e : PageElement) :
    applyKeyNat ro e < ro.length + 2 := by
  rcases applySortKey_cases ro e with ⟨h, _⟩ | ⟨i, h, hi, _, _⟩ | ⟨h, _, _⟩
  · rw [applyKeyNat_eq_band0 ro e h]
    omega
  · rw [applyKeyNat_eq_band1 ro e i h]
    omega
  · rw [applyKeyNat_eq_band2 ro e h]
    omega

theorem applyRoLe_iff_keyNat (ro : List String) (a b : PageElement) :
    applyRoLe ro a b ↔ applyKeyNat ro a ≤ applyKeyNat ro b := by
  have hta : applyRoLe ro a b ↔ tupLe (applySortKey ro a) (applySortKey ro b) := Iff.rfl
  rw [hta]
  rcases applySortKey_cases ro a with ⟨ha, _⟩ | ⟨i, ha, hi, _, _⟩ | ⟨ha, _, _⟩
  · rw [applyKeyNat_eq_band0 ro a ha, ha]
    rcases applySortKey_cases ro b with ⟨hb, _⟩ | ⟨j, hb, hj, _, _⟩ | ⟨hb, _, _⟩
    · rw [applyKeyNat_eq_band0 ro b hb, hb]
      unfold tupLe
      omega
    · rw [applyKeyNat_eq_band1 ro b j hb, hb]
      unfold tupLe
      omega
    · rw [applyKeyNat_eq_band2 ro b hb, hb]
      unfold tupLe
      omega
  · rw [applyKeyNat_eq_band1 ro a i ha, ha]
    rcases applySortKey_cases ro b with ⟨hb, _⟩ | ⟨j, hb, hj, _, _⟩ | ⟨hb, _, _⟩
    · rw [applyKeyNat_eq_band0 ro b hb, hb]
      unfold tupLe
      omega
    · rw [applyKeyNat_eq_band1 ro b j hb, hb]
      unfold tupLe
      omega
    · rw [applyKeyNat_eq_band2 ro b hb, hb]
      unfold tupLe
      omega
  · rw [applyKeyNat_eq_band2 ro a ha, ha]
    rcases applySortKey_cases ro b with ⟨hb, _⟩ | ⟨j, hb, hj, _, _⟩ | ⟨hb, _, _⟩
    · rw [applyKeyNat_eq_band0 ro b hb, hb]
      unfold tupLe
      omega
    · rw [applyKeyNat_eq_band1 ro b j hb, hb]
      unfold tupLe
      omega
    · rw [applyKeyNat_eq_band2 ro b hb, hb]
      unfold tupLe
      omega

theorem applyKeyNat_band0_iff (ro : List String) (e : PageElement) :
    (applyKeyNat ro e == 0) = !e.is_region := by
  rcases applySortKey_cases ro e with ⟨h, hr⟩ | ⟨i, h, hi, hr, _⟩ | ⟨h, hr, _⟩
  · rw [applyKeyNat_eq_band0 ro e h, hr]
    rfl
  · rw [applyKeyNat_eq_band1 ro e i h, hr]
    simp
  · rw [applyKeyNat_eq_band2 ro e h, hr]
    simp

theorem applyKeyNat_band1_iff (ro : List String) (e : PageElement) (i : Nat)
    (hi : i < ro.length) :
    (applyKeyNat ro e == i + 1) = (e.is_region && roPosOf ro e == some i) := by
  rcases applySortKey_cases ro e with ⟨h, hr⟩ | ⟨j, h, hj, hr, hp⟩ | ⟨h, hr, hp⟩
  · rw [applyKeyNat_eq_band0 ro e h, hr]
    simp
  · rw [applyKeyNat_eq_band1 ro e j h, hr, hp]
    simp only [Bool.true_and]
    by_cases hij : j = i
    · subst hij
      simp
    · have h1 : (j + 1 == i + 1) = false := by
        simp only [beq_eq_false_iff_ne, ne_eq]
        omega
      have h2 : ((some j : Option Nat) == some i) = false := by
        simp [hij]
      rw [h1, h2]
  · rw [applyKeyNat_eq_band2 ro e h, hr, hp]
    simp only [Bool.true_and]
    have h1 : (ro.length + 1 == i + 1) = false := by
      simp only [beq_eq_false_iff_ne, ne_eq]
      omega
    have h2 : ((none : Option Nat) == some i) = false := by simp
    rw [h1, h2]

theorem applyKeyNat_band2_iff (ro : List String) (e : PageElement) :
    (applyKeyNat ro e == ro.length + 1) = (e.is_region && roPosOf ro e == none) := by
  rcases applySortKey_cases ro e with ⟨h, hr⟩ | ⟨j, h, hj, hr, hp⟩ | ⟨h, hr, hp⟩
  · rw [applyKeyNat_eq_band0 ro e h, hr]
    simp
  · rw [applyKeyNat_eq_band1 ro e j h, hr, hp]
    simp only [Bool.true_and]
    have h1 : (j + 1 == ro.length + 1) = false := by
      simp only [beq_eq_false_iff_ne, ne_eq]
      omega
    have h2 : ((some j : Option Nat) == none) = false := by simp
    rw [h1, h2]
  · rw [applyKeyNat_eq_band2 ro e h, hr, hp]
    simp

/-- C7: apply_reading_order is a stable three-band reorder and is
idempotent.  After one call the elements list consists of the non-region
elements first (stable among themselves), then the region elements whose id
is in the reading order, grouped by ascending reading-order position (stable
within a position), then the region elements whose id is not in the reading
order (stable among themselves); a second call immediately afterwards leaves
the element order unchanged. -/
theorem c7_apply_reading_order (p : PageXML) :
    (PageXML.apply_reading_order p).elements =
        p.elements.filter (fun e => !e.is_region)
        ++ (List.range p.reading_order.length).flatMap (fun i =>
             p.elements.filter (fun e =>
               e.is_region && roPosOf p.reading_order e == some i))
        ++ p.elements.filter (fun e => e.is_region && roPosOf p.reading_order e == none)
    ∧ PageXML.apply_reading_order (PageXML.apply_reading_order p) =
        PageXML.apply_reading_order p := by
  constructor
  · have hbridge : (PageXML.apply_reading_order p).elements =
        sortByKey (applyKeyNat p.reading_order) p.elements := by
      unfold PageXML.apply_reading_order sortByKey
      exact insertionSort_rel_congr _ _ (applyRoLe_iff_keyNat p.reading_order) p.elements
    rw [hbridge,
      sortByKey_classes _ (p.reading_order.length + 2) _
        (fun e _ => applyKeyNat_lt p.reading_order e)]
    have h2 : p.reading_order.length + 2 = p.reading_order.length + 1 + 1 := rfl
    rw [h2, List.range_succ (p.reading_order.length + 1), List.range_succ_eq_map,
      List.flatMap_append, List.flatMap_cons]
    have hA : p.elements.filter (fun e => applyKeyNat p.reading_order e == 0) =
        p.elements.filter (fun e => !e.is_region) :=
      List.filter_congr (fun e _ => applyKeyNat_band0_iff p.reading_order e)
    have hB : (List.map Nat.succ (List.range p.reading_order.length)).flatMap
          (fun v => p.elements.filter (fun e => applyKeyNat p.reading_order e == v)) =
        (List.range p.reading_order.length).flatMap (fun i =>
          p.elements.filter (fun e =>
            e.is_region && roPosOf p.reading_order e == some i)) := by
      rw [List.flatMap_map]
      apply flatMap_congr_mem
      intro i hi
      rw [List.mem_range] at hi
      exact List.filter_congr (fun e _ => applyKeyNat_band1_iff p.reading_order e i hi)
    have hC : ([p.reading_order.length + 1] : List Nat).flatMap
          (fun v => p.elements.filter (fun e => applyKeyNat p.reading_order e == v)) =
        p.elements.filter (fun e =>
          e.is_region && roPosOf p.reading_order e == none) := by
      rw [List.flatMap_cons, List.flatMap_nil, List.append_nil]
      exact List.filter_congr (fun e _ => applyKeyNat_band2_iff p.reading_order e)
    rw [hA, hB, hC]
  · have hs : List.insertionSort (applyRoLe p.reading_order)
        (List.insertionSort (applyRoLe p.reading_order) p.elements) =
        List.insertionSort (applyRoLe p.reading_order) p.elements :=
      List.Sorted.insertionSort_eq (List.sorted_insertionSort _ _)
    simp only [PageXML.apply_reading_order]
    rw [hs]

/-- Splitting a successful mapM that pairs every element with its computed
key: the second components are the original list in order, and every pair's
key is the key function's output on its element. -/
theorem mapM_attach_shape {α β : Type} (f : α → Option β) :
    ∀ (es : List α) (keyed : List (β × α)),
    es.mapM (fun e => (f e).map (fun k => (k, e))) = some keyed →
    keyed.map (fun pr => pr.2) = es ∧ ∀ pr ∈ keyed, f pr.2 = some pr.1
  | [], keyed, h => by
      rw [List.mapM_nil] at h
      have h2 : some ([] : List (β × α)) = some keyed := h
      have h3 : ([] : List (β × α)) = keyed := by injection h2
      subst h3
      exact ⟨rfl, fun pr hpr => absurd hpr (List.not_mem_nil pr)⟩
  | a :: as, keyed, h => by
      rw [List.mapM_cons] at h
      cases hfa : f a with
      | none =>
          rw [hfa] at h
          have h2 : (none : Option (List (β × α))) = some keyed := h
          exact Option.noConfusion h2
      | some k =>
          rw [hfa] at h
          cases hrest : as.mapM (fun e => (f e).map (fun k => (k, e))) with
          | none =>
              rw [hrest] at h
              have h2 : (none : Option (List (β × α))) = some keyed := h
              exact Option.noConfusion h2
          | some rest =>
              rw [hrest] at h
              have h2 : some ((k, a) :: rest) = some keyed := h
              have h3 : (k, a) :: rest = keyed := by injection h2
              subst h3
              obtain ⟨ih1, ih2⟩ := mapM_attach_shape f as rest hrest
              constructor
              · simp [ih1]
              · intro pr hpr
                rcases List.mem_cons.mp hpr with h4 | h4
                · rw [h4]
                  exact hfa
                · exact ih2 pr h4

/-- C8: directional sort correctness.  For every document all of whose
elements get a sort key (the mapM hypothesis; regions with a Coords child
carrying a parsable points attribute always do), sort_reading_order
succeeds and returns a permutation of the elements whose keys are ascending
under Python tuple comparison, with reading_order rebuilt from the ids of
the regions in the new element order.  Each region's key is the minimum
(resp. maximum, arithmetic mean) coordinate on the Y axis for
top-bottom/bottom-top and the X axis for left-right/right-left, negated for
bottom-top/right-left.  In particular, for three regions with Coords
y-ranges [100,200], [300,400], [10,50], reference=minimum with
direction=top-bottom yields reading order [rC, rA, rB] and direction
bottom-top its reverse. -/
theorem c8_sort_reading_order_directional (p : PageXML) (base direction : String)
    (keyed : List ((Nat × Rat) × PageElement))
    (hkeys : p.elements.mapM
      (fun e => (sortRoKey base direction e).map (fun k => (k, e))) = some keyed) :
    (∃ q, PageXML.sort_reading_order p base direction false = some q
      ∧ List.Perm q.elements p.elements
      ∧ q.elements.Pairwise (fun a b => ∃ ka kb,
          sortRoKey base direction a = some ka ∧ sortRoKey base direction b = some kb ∧
          tupLe ka kb)
      ∧ q.reading_order = q.elements.filterMap (fun e =>
          if e.is_region = true then PageElement.getAttr e "id" else none))
    ∧ (∀ e coords, e.is_region = true →
        PageElement.find_coords e = some coords →
        coords.hasAttr "points" = true →
        ∀ pts vals,
          parsePoints ((PageElement.getAttr coords "points").getD "") = some pts →
          pts.mapM (fun pnt => pnt.get?
            (if direction = "top-bottom" ∨ direction = "bottom-top" then 1 else 0)) =
              some vals →
          (∀ m, base = "minimum" → vals.min? = some m →
            sortRoKey base direction e = some (1,
              if direction = "bottom-top" ∨ direction = "right-left"
              then -(m : Rat) else (m : Rat)))
          ∧ (∀ m, base = "maximum" → vals.max? = some m →
            sortRoKey base direction e = some (1,
              if direction = "bottom-top" ∨ direction = "right-left"
              then -(m : Rat) else (m : Rat)))
          ∧ (base = "centroid" → 0 < vals.length →
            sortRoKey base direction e = some (1,
              if direction = "bottom-top" ∨ direction = "right-left"
              then -(Rat.divInt vals.sum (vals.length : Int))
              else Rat.divInt vals.sum (vals.length : Int))))
    ∧ ((PageXML.sort_reading_order c8doc "minimum" "top-bottom" true).map
          (fun q => q.reading_order) = some ["rC", "rA", "rB"]
      ∧ (PageXML.sort_reading_order c8doc "minimum" "bottom-top" true).map
          (fun q => q.reading_order) = some ["rB", "rA", "rC"]
      ∧ (PageXML.sort_reading_order c8doc "minimum" "top-bottom" true).map
          (fun q => q.elements.filterMap (fun e =>
            if e.is_region = true then PageElement.getAttr e "id" else none)) =
          some ["rC", "rA", "rB"]
      ∧ sortRoKey "minimum" "top-bottom" regYA = some (1, (100 : Rat))
      ∧ sortRoKey "minimum" "top-bottom" regYB = some (1, (300 : Rat))
      ∧ sortRoKey "minimum" "top-bottom" regYC = some (1, (10 : Rat))
      ∧ sortRoKey "maximum" "top-bottom" regYA = some (1, (200 : Rat))
      ∧ sortRoKey "centroid" "top-bottom" regYA = some (1, Rat.divInt 300 2)
      ∧ sortRoKey "minimum" "bottom-top" regYA = some (1, (-100 : Rat))
      ∧ sortRoKey "minimum" "left-right" regYA = some (1, (0 : Rat))) := by
  refine ⟨?_, ?_, by decide⟩
  · obtain ⟨hmap, hall⟩ := mapM_attach_shape
      (fun e => sortRoKey base direction e) p.elements keyed hkeys
    refine ⟨{ p with
        elements := (List.insertionSort srKeyedLe keyed).map (fun pr => pr.2)
        reading_order := ((List.insertionSort srKeyedLe keyed).map (fun pr => pr.2)).filterMap
          (fun e => if e.is_region = true then PageElement.getAttr e "id" else none) },
      ?_, ?_, ?_, ?_⟩
    · unfold PageXML.sort_reading_order
      rw [hkeys]
      rfl
    · show List.Perm ((List.insertionSort srKeyedLe keyed).map (fun pr => pr.2)) p.elements
      rw [← hmap]
      exact (List.perm_insertionSort srKeyedLe keyed).map (fun pr => pr.2)
    · show ((List.insertionSort srKeyedLe keyed).map (fun pr => pr.2)).Pairwise _
      rw [List.pairwise_map]
      have hsorted : List.Pairwise srKeyedLe (List.insertionSort srKeyedLe keyed) :=
        List.sorted_insertionSort srKeyedLe keyed
      apply List.Pairwise.imp_of_mem ?_ hsorted
      intro a b ha hb hab
      exact ⟨a.1, b.1,
        hall a ((List.perm_insertionSort srKeyedLe keyed).subset ha),
        hall b ((List.perm_insertionSort srKeyedLe keyed).subset hb), hab⟩
    · rfl
  · intro e coords hreg hco hpt pts vals hpts hvals
    have h1 : sortRoKey base direction e =
        (if coords.hasAttr "points" then
          match parsePoints ((PageElement.getAttr coords "points").getD "") with
          | some pts2 =>
              match pts2.mapM (fun pnt => pnt.get?
                  (if direction = "top-bottom" ∨ direction = "bottom-top" then 1 else 0)) with
              | some vals2 =>
                  match (if base = "minimum" then (vals2.min?).map (fun v => (v : Rat))
                    else if base = "maximum" then (vals2.max?).map (fun v => (v : Rat))
                    else if vals2.length = 0 then none
                    else some (Rat.divInt vals2.sum (vals2.length : Int))) with
                  | some key =>
                      if direction = "bottom-top" ∨ direction = "right-left" then
                        some (1, -key)
                      else some (1, key)
                  | none => none
              | none => none
          | none => none
        else some (2, 0)) := by
      unfold sortRoKey
      rw [if_neg (by simp [hreg]), hco]
    have hkey : sortRoKey base direction e =
        (match (if base = "minimum" then (vals.min?).map (fun v => (v : Rat))
          else if base = "maximum" then (vals.max?).map (fun v => (v : Rat))
          else if vals.length = 0 then none
          else some (Rat.divInt vals.sum (vals.length : Int))) with
        | some key =>
            if direction = "bottom-top" ∨ direction = "right-left" then some (1, -key)
            else some (1, key)
        | none => none) := by
      rw [h1, if_pos hpt, hpts]
      show (match pts.mapM (fun pnt => pnt.get?
          (if direction = "top-bottom" ∨ direction = "bottom-top" then 1 else 0)) with
        | some vals2 =>
            match (if base = "minimum" then (vals2.min?).map (fun v => (v : Rat))
              else if base = "maximum" then (vals2.max?).map (fun v => (v : Rat))
              else if vals2.length = 0 then none
              else some (Rat.divInt vals2.sum (vals2.length : Int))) with
            | some key =>
                if direction = "bottom-top" ∨ direction = "right-left" then some (1, -key)
                else some (1, key)
            | none => none
        | none => none) =
        (match (if base = "minimum" then (vals.min?).map (fun v => (v : Rat))
          else if base = "maximum" then (vals.max?).map (fun v => (v : Rat))
          else if vals.length = 0 then none
          else some (Rat.divInt vals.sum (vals.length : Int))) with
        | some key =>
            if direction = "bottom-top" ∨ direction = "right-left" then some (1, -key)
            else some (1, key)
        | none => none)
      rw [hvals]
    refine ⟨?_, ?_, ?_⟩
    · intro m hbase hm
      rw [hkey]
      subst hbase
      rw [if_pos rfl, hm]
      show (if direction = "bottom-top" ∨ direction = "right-left"
          then some ((1 : Nat), -(m : Rat)) else some ((1 : Nat), (m : Rat))) =
        some (1, if direction = "bottom-top" ∨ direction = "right-left"
          then -(m : Rat) else (m : Rat))
      by_cases hd : direction = "bottom-top" ∨ direction = "right-left"
      · rw [if_pos hd, if_pos hd]
      · rw [if_neg hd, if_neg hd]
    · intro m hbase hm
      rw [hkey]
      subst hbase
      rw [if_neg (by decide), if_pos rfl, hm]
      show (if direction = "bottom-top" ∨ direction = "right-left"
          then some ((1 : Nat), -(m : Rat)) else some ((1 : Nat), (m : Rat))) =
        some (1, if direction = "bottom-top" ∨ direction = "right-left"
          then -(m : Rat) else (m : Rat))
      by_cases hd : direction = "bottom-top" ∨ direction = "right-left"
      · rw [if_pos hd, if_pos hd]
      · rw [if_neg hd, if_neg hd]
    · intro hbase hlen
      rw [hkey]
      subst hbase
      rw [if_neg (by decide), if_neg (by decide), if_neg (by omega)]
      show (if direction = "bottom-top" ∨ direction = "right-left"
          then some ((1 : Nat), -(Rat.divInt vals.sum (vals.length : Int)))
          else some ((1 : Nat), Rat.divInt vals.sum (vals.length : Int))) =
        some (1, if direction = "bottom-top" ∨ direction = "right-left"
          then -(Rat.divInt vals.sum (vals.length : Int))
          else Rat.divInt vals.sum (vals.length : Int))
      by_cases hd : direction = "bottom-top" ∨ direction = "right-left"
      · rw [if_pos hd, if_pos hd]
      · rw [if_neg hd, if_neg hd]

/-- C8 witness: the universal directional-sort theorem applied at c8doc with
reference=minimum, direction=top-bottom and its concrete key list. -/
theorem c8_sort_reading_order_directional_witness :
    (c8doc.elements.mapM
      (fun e => (sortRoKey "minimum" "top-bottom" e).map (fun k => (k, e))) = some c8keyed)
    ∧ (∃ q, PageXML.sort_reading_order c8doc "minimum" "top-bottom" false = some q
        ∧ List.Perm q.elements c8doc.elements
        ∧ q.elements.Pairwise (fun a b => ∃ ka kb,
            sortRoKey "minimum" "top-bottom" a = some ka ∧
            sortRoKey "minimum" "top-bottom" b = some kb ∧ tupLe ka kb)
        ∧ q.reading_order = q.elements.filterMap (fun e =>
            if e.is_region = true then PageElement.getAttr e "id" else none)) :=
  ⟨by decide, (c8_sort_reading_order_directional c8doc "minimum" "top-bottom" c8keyed
      (by decide)).1⟩

/-! ## Helper lemmas: find_text -/

theorem teKeyList_length : ∀ (l : List PageElement) (ks : List (Int × PageElement)),
    teKeyList l = .ok ks → ks.length = l.length
  | [], ks, h => by
      cases h
      rfl
  | x :: xs, ks, h => by
      unfold teKeyList at h
      cases hk : teKey x with
      | error m => rw [hk] at h; cases h
      | ok k =>
          rw [hk] at h
          cases hr : teKeyList xs with
          | error m => rw [hr] at h; cases h
          | ok rest =>
              rw [hr] at h
              cases h
              simp [teKeyList_length xs rest hr]

/-- C9: text-extraction tie-break.  For an element above the TextEquiv level
with more than one direct TextEquiv child and no explicit index requested,
provided every child's index attribute is integral or absent (absent counts
as -1), find_text succeeds (returns ok, never raises), and the returned text
is extracted from a candidate whose key is minimal among all candidates. -/
theorem c9_find_text_tiebreak (e : PageElement) (source : PageType)
    (keyed : List (Int × PageElement))
    (h1 : e.pagetype ≠ PageType.Unicode) (h2 : e.pagetype ≠ PageType.PlainText)
    (h3 : e.pagetype ≠ PageType.TextEquiv)
    (hlen : 1 < (PageElement.find_by_type e [PageType.TextEquiv] 0 []).length)
    (hkeys : teKeyList (PageElement.find_by_type e [PageType.TextEquiv] 0 []) = .ok keyed) :
    ∃ pr, pr ∈ keyed ∧ (∀ qr ∈ keyed, pr.1 ≤ qr.1) ∧
      PageElement.find_text e none source = .ok (pickFirstText [pr.2] source) := by
  have hft : PageElement.find_text e none source =
      .ok (pickFirstText ((List.insertionSort teLe keyed).map (fun p => p.2)) source) := by
    unfold PageElement.find_text
    rw [if_neg (by simp [h1, h2])]
    have hidx : (match (none : Option Int) with
        | none => ([] : List (String × String))
        | some i => [("index", intRepr i)]) = [] := rfl
    rw [if_neg h3, hidx, if_pos hlen, hkeys]
  have hperm : List.Perm (List.insertionSort teLe keyed) keyed :=
    List.perm_insertionSort teLe keyed
  have hsorted : (List.insertionSort teLe keyed).Pairwise teLe :=
    List.sorted_insertionSort teLe keyed
  obtain ⟨pr, rest, hsr⟩ : ∃ pr rest, List.insertionSort teLe keyed = pr :: rest := by
    cases hs : List.insertionSort teLe keyed with
    | nil =>
        exfalso
        have hl := hperm.length_eq
        rw [hs] at hl
        have hkl := teKeyList_length _ _ hkeys
        simp only [List.length_nil] at hl
        omega
    | cons pr rest => exact ⟨pr, rest, rfl⟩
  refine ⟨pr, ?_, ?_, ?_⟩
  · exact hperm.subset (hsr ▸ List.mem_cons_self pr rest)
  · intro qr hq
    have hq' : qr ∈ List.insertionSort teLe keyed := hperm.symm.subset hq
    rw [hsr] at hq'
    rcases List.mem_cons.mp hq' with h | h
    · rw [h]
    · have hpw := List.pairwise_cons.mp (hsr ▸ hsorted)
      exact hpw.1 qr h
  · rw [hft, hsr]
    rfl

/-- Witness for C9: the TextLine with TextEquiv children index=1 (text "B")
and no index (text "A"): the minimal key is -1 (the no-index child) and
find_text returns "A". -/
theorem c9_find_text_tiebreak_witness :
    (∃ pr, pr ∈ c9keyed ∧ (∀ qr ∈ c9keyed, pr.1 ≤ qr.1) ∧
      PageElement.find_text c9line none PageType.Unicode =
        .ok (pickFirstText [pr.2] PageType.Unicode))
    ∧ PageElement.find_text c9line none PageType.Unicode = .ok (some "A") :=
  ⟨c9_find_text_tiebreak c9line PageType.Unicode c9keyed (by decide) (by decide) (by decide)
      (by decide) (by decide),
   by decide⟩

/-! ## Helper lemmas: parsing -/

theorem addParsedChildren_eq (ts : List XTree) : ∀ (b : PageXML),
    addParsedChildren b ts =
      Except.map (fun es => { b with elements := b.elements ++ es }) (from_etree_list ts) := by
  induction ts with
  | nil =>
      intro b
      simp [addParsedChildren, from_etree_list, Except.map]
  | cons t ts ih =>
      intro b
      cases he : PageElement.from_etree t with
      | error m => simp [addParsedChildren, from_etree_list, he, Except.map]
      | ok e =>
          simp only [addParsedChildren, from_etree_list, he, set_element_ro_false]
          rw [ih { b with elements := b.elements ++ [e] }]
          cases hr : from_etree_list ts with
          | error m => simp [hr, Except.map]
          | ok es => simp [hr, Except.map, List.append_assoc]

theorem from_etree_list_mem : ∀ (ts : List XTree) (es : List PageElement),
    from_etree_list ts = .ok es → ∀ e ∈ es, ∃ t ∈ ts, PageElement.from_etree t = .ok e
  | [], es, h => by
      cases h
      intro e he
      cases he
  | t :: ts, es, h => by
      unfold from_etree_list at h
      cases ht : PageElement.from_etree t with
      | error m => rw [ht] at h; cases h
      | ok e0 =>
          rw [ht] at h
          cases hr : from_etree_list ts with
          | error m => rw [hr] at h; cases h
          | ok es0 =>
              rw [hr] at h
              cases h
              intro e he
              rcases List.mem_cons.mp he with h1 | h1
              · refine ⟨t, List.mem_cons_self t ts, ?_⟩
                rw [h1]
                exact ht
              · obtain ⟨t', ht', he'⟩ := from_etree_list_mem ts es0 hr e h1
                exact ⟨t', List.mem_cons_of_mem t ht', he'⟩

theorem from_etree_ok_pagetype (t : XTree) (e : PageElement)
    (h : PageElement.from_etree t = .ok e) :
    PageType.ofString? t.tag = some e.pagetype := by
  cases t with
  | mk tg a x children =>
      unfold PageElement.from_etree at h
      cases ho : PageType.ofString? tg with
      | none => rw [ho] at h; cases h
      | some pt =>
          rw [ho] at h
          cases hl : from_etree_list children with
          | error m => rw [hl] at h; cases h
          | ok els =>
              rw [hl] at h
              cases h
              simpa [XTree.tag, PageElement.pagetype] using ho

/-- C5: parse reconstructs the reading order by sorting.  If the tree has a
Page whose first ReadingOrder child is ro, the RegionRefIndexed descendants
of ro all carry integral index attributes (keyed), exactly one Page child is
tagged ReadingOrder, and the parse succeeds, then: the resulting
reading_order is the regionRef attributes of the entries re-ordered into
some ascending-by-index permutation of keyed; the document's elements are
exactly the converted remaining children (the ReadingOrder subtree is
removed and the reading order never re-derived from them — they are added
with ro=False, which provably leaves reading_order untouched); and no
element of the document has type ReadingOrder. -/
theorem c5_parse_reading_order (tree : XTree) (now : String) (page ro : XTree)
    (keyed : List (Int × XTree)) (d : PageXML)
    (hpage : findChild tree "Page" = some page)
    (hro : findChild page "ReadingOrder" = some ro)
    (hkeyed : keyRriEntries (descendantsRRI ro) = .ok keyed)
    (hone : (page.children.filter (fun c => c.tag == "ReadingOrder")).length = 1)
    (hd : PageXML.from_etree tree now = .ok d) :
    (∃ sorted, List.Perm keyed sorted ∧ sorted.Pairwise rriLe ∧
       extractRegionRefs sorted = .ok d.reading_order)
    ∧ from_etree_list (page.children.erase ro) = .ok d.elements
    ∧ (∀ e ∈ d.elements, e.pagetype ≠ PageType.ReadingOrder) := by
  unfold PageXML.from_etree at hd
  rw [hpage] at hd
  have hd2 : PageXML.fromPage tree page now = .ok d := hd
  clear hd
  unfold PageXML.fromPage at hd2
  cases hh : pyIntAttr (page.get "imageHeight") with
  | error m => rw [hh] at hd2; cases hd2
  | ok hgt =>
  rw [hh] at hd2
  cases hw : pyIntAttr (page.get "imageWidth") with
  | error m => rw [hw] at hd2; cases hd2
  | ok wdt =>
  rw [hw] at hd2
  cases hf : page.get "imageFilename" with
  | none => rw [hf] at hd2; cases hd2
  | some fn =>
  rw [hf] at hd2
  rw [hro] at hd2
  have hd3 : (match keyRriEntries (descendantsRRI ro) with
      | .error msg => .error msg
      | .ok keyed2 =>
          match extractRegionRefs (List.insertionSort rriLe keyed2) with
          | .error msg => .error msg
          | .ok refs =>
              addParsedChildren
                { parseBase tree page now fn hgt wdt with reading_order := refs }
                (page.children.erase ro)) = Except.ok d := hd2
  clear hd2
  rw [hkeyed] at hd3
  have hd4 : (match extractRegionRefs (List.insertionSort rriLe keyed) with
      | .error msg => .error msg
      | .ok refs =>
          addParsedChildren
            { parseBase tree page now fn hgt wdt with reading_order := refs }
            (page.children.erase ro)) = Except.ok d := hd3
  clear hd3
  cases hx : extractRegionRefs (List.insertionSort rriLe keyed) with
  | error m => rw [hx] at hd4; cases hd4
  | ok refs =>
  rw [hx] at hd4
  have hd5 : addParsedChildren
      { parseBase tree page now fn hgt wdt with reading_order := refs }
      (page.children.erase ro) = Except.ok d := hd4
  clear hd4
  rw [addParsedChildren_eq] at hd5
  cases hl : from_etree_list (page.children.erase ro) with
  | error m => rw [hl] at hd5; cases hd5
  | ok es =>
  rw [hl] at hd5
  simp only [Except.map, Except.ok.injEq] at hd5
  have hdro : d.reading_order = refs := by
    rw [← hd5]
  have hdel : d.elements = es := by
    rw [← hd5]
    simp [parseBase]
  refine ⟨⟨List.insertionSort rriLe keyed, (List.perm_insertionSort rriLe keyed).symm,
      List.sorted_insertionSort rriLe keyed, ?_⟩, ?_, ?_⟩
  · rw [hdro]
    exact hx
  · rw [hdel]
  · -- no remaining child is tagged ReadingOrder
    have hmemro : ro ∈ page.children := by
      unfold findChild at hro
      exact List.mem_of_find?_eq_some hro
    have hperm2 : List.Perm page.children (ro :: page.children.erase ro) :=
      List.perm_cons_erase hmemro
    have hrotag : (ro.tag == "ReadingOrder") = true := by
      unfold findChild at hro
      have h0 := List.find?_some hro
      exact h0
    have hfl : (page.children.filter (fun c => c.tag == "ReadingOrder")).length =
        ((ro :: page.children.erase ro).filter (fun c => c.tag == "ReadingOrder")).length :=
      (hperm2.filter (fun c => c.tag == "ReadingOrder")).length_eq
    rw [List.filter_cons, if_pos hrotag] at hfl
    rw [hone] at hfl
    have hnone : ((page.children.erase ro).filter
        (fun c => c.tag == "ReadingOrder")).length = 0 := by
      simp only [List.length_cons] at hfl
      omega
    have hnotag : ∀ t ∈ page.children.erase ro, ¬ (t.tag == "ReadingOrder") = true := by
      rw [List.length_eq_zero] at hnone
      intro t ht htag
      have : t ∈ ((page.children.erase ro).filter (fun c => c.tag == "ReadingOrder")) :=
        List.mem_filter.mpr ⟨ht, htag⟩
      rw [hnone] at this
      cases this
    intro e he heq
    obtain ⟨t, ht, hte⟩ := from_etree_list_mem _ _ hl e (hdel ▸ he)
    have hpt := from_etree_ok_pagetype t e hte
    rw [heq] at hpt
    have htag : t.tag = "ReadingOrder" := PageType.ofString?_eq_some _ _ hpt
    exact hnotag t ht (by simp [htag])

/-- Witness for C5: a Page whose ReadingOrder block lists entries with
out-of-order index attributes 2,0,1 (refs a,b,c) parses to reading order
["b","c","a"], with the ReadingOrder subtree absent from the elements. -/
theorem c5_parse_reading_order_witness :
    (∃ sorted, List.Perm c5keyed sorted ∧ sorted.Pairwise rriLe ∧
       extractRegionRefs sorted = .ok c5parsed.reading_order)
    ∧ from_etree_list (c5page.children.erase c5ro) = .ok c5parsed.elements
    ∧ (∀ e ∈ c5parsed.elements, e.pagetype ≠ PageType.ReadingOrder) :=
  c5_parse_reading_order c5tree "now" c5page c5ro c5keyed c5parsed (by decide) (by decide)
    (by decide) (by decide) (by decide)

/-! ## Helper lemmas: serialization round trip -/

mutual
theorem from_to_elem : ∀ e : PageElement,
    PageElement.from_etree (PageElement.to_etree e) = .ok e
  | .mk pt a x els => by
      unfold PageElement.to_etree PageElement.from_etree
      rw [PageType.ofString?_value, from_to_list els]
theorem from_to_list : ∀ es : List PageElement,
    from_etree_list (to_etree_list es) = .ok es
  | [] => rfl
  | e :: es => by
      unfold to_etree_list from_etree_list
      rw [from_to_elem e, from_to_list es]
end

theorem to_etree_tag (e : PageElement) :
    (PageElement.to_etree e).tag = e.pagetype.value := by
  cases e
  rfl

theorem mem_to_etree_list : ∀ (es : List PageElement) (t : XTree),
    t ∈ to_etree_list es → ∃ e ∈ es, t = PageElement.to_etree e
  | [], t, h => by cases h
  | e :: es, t, h => by
      unfold to_etree_list at h
      rcases List.mem_cons.mp h with h1 | h1
      · exact ⟨e, List.mem_cons_self e es, h1⟩
      · obtain ⟨e', he', ht⟩ := mem_to_etree_list es t h1
        exact ⟨e', List.mem_cons_of_mem e he', ht⟩

theorem value_ne_ReadingOrder (pt : PageType) (h : pt ≠ PageType.ReadingOrder) :
    pt.value ≠ "ReadingOrder" := by
  cases pt <;> first | (exact absurd rfl h) | decide

theorem find?_to_etree_ReadingOrder_none (els : List PageElement)
    (h : ∀ e ∈ els, e.pagetype ≠ PageType.ReadingOrder) :
    (to_etree_list els).find? (fun c => c.tag == "ReadingOrder") = none := by
  rw [List.find?_eq_none]
  intro t ht
  obtain ⟨e, he, hte⟩ := mem_to_etree_list els t ht
  have h1 : t.tag = e.pagetype.value := by
    rw [hte]
    exact to_etree_tag e
  have h2 : e.pagetype.value ≠ "ReadingOrder" := value_ne_ReadingOrder _ (h e he)
  simp [h1, h2]

theorem descendantsRRIList_leaves : ∀ ts : List XTree,
    (∀ t ∈ ts, t.tag = "RegionRefIndexed" ∧ t.children = []) →
    descendantsRRIList ts = ts
  | [], _ => rfl
  | t :: ts, h => by
      obtain ⟨htag, hch⟩ := h t (List.mem_cons_self t ts)
      unfold descendantsRRIList
      rw [if_pos htag]
      have hd : descendantsRRI t = [] := by
        cases t with
        | mk tg a x children =>
            unfold descendantsRRI
            simp only [XTree.children] at hch
            rw [hch]
            rfl
      rw [hd, descendantsRRIList_leaves ts (fun u hu => h u (List.mem_cons_of_mem t hu))]
      simp

theorem descendantsRRI_roBlockOf (ro : List String) :
    descendantsRRI (roBlockOf ro) = ro.enum.map mkRriEntry := by
  have h1 : descendantsRRIList (ro.enum.map mkRriEntry) = ro.enum.map mkRriEntry := by
    apply descendantsRRIList_leaves
    intro t ht
    obtain ⟨pr, _, hpr⟩ := List.mem_map.mp ht
    rw [← hpr]
    exact ⟨rfl, rfl⟩
  show descendantsRRIList (ro.enum.map mkRriEntry) ++ [] = ro.enum.map mkRriEntry
  rw [List.append_nil]
  exact h1

theorem keyRriEntries_mkRri : ∀ l : List (Nat × String),
    keyRriEntries (l.map mkRriEntry) =
      .ok (l.map (fun pr => ((pr.1 : Int), mkRriEntry pr)))
  | [] => rfl
  | pr :: l => by
      have h1 : pyIntAttr ((mkRriEntry pr).get "index") = .ok (pr.1 : Int) := by
        show (match parseInt (natRepr pr.1) with
          | some v => Except.ok v
          | none =>
              Except.error ("invalid literal for int() with base 10: " ++ natRepr pr.1)) =
          Except.ok (pr.1 : Int)
        rw [parseInt_natRepr]
      simp only [List.map_cons]
      unfold keyRriEntries
      rw [h1, keyRriEntries_mkRri l]

theorem extractRegionRefs_mkRri : ∀ l : List (Nat × String),
    extractRegionRefs (l.map (fun pr => ((pr.1 : Int), mkRriEntry pr))) =
      .ok (l.map (fun pr => pr.2))
  | [] => rfl
  | pr :: l => by
      unfold extractRegionRefs
      have h1 : (mkRriEntry pr).get "regionRef" = some pr.2 := rfl
      simp only [List.map_cons, h1, extractRegionRefs_mkRri l]

theorem enum_pairwise_fst_le {α : Type} (l : List α) :
    l.enum.Pairwise (fun a b => a.1 ≤ b.1) := by
  rw [List.pairwise_iff_getElem]
  intro i j hi hj hij
  rw [List.getElem_enum l i (by simpa using hi), List.getElem_enum l j (by simpa using hj)]
  omega

theorem sort_enum_keyed_eq (ro : List String) :
    List.insertionSort rriLe (ro.enum.map (fun pr => ((pr.1 : Int), mkRriEntry pr))) =
      ro.enum.map (fun pr => ((pr.1 : Int), mkRriEntry pr)) := by
  apply List.Sorted.insertionSort_eq
  rw [List.Sorted, List.pairwise_map]
  apply List.Pairwise.imp ?_ (enum_pairwise_fst_le ro)
  intro a b h
  exact Int.ofNat_le.mpr h

theorem max_zero_natCast_toNat (n : Nat) : (max 0 ((n : Nat) : Int)).toNat = n := by
  have h1 : (0 : Int) ⊔ (n : Int) = (n : Int) := sup_eq_right.mpr (by positivity)
  rw [h1]
  exact Int.toNat_natCast n

/-- Forward evaluation of fromPage when a ReadingOrder child is present:
with all five lookups resolved, parsing produces the base document with the
extracted reading order and the parsed remaining children. -/
theorem fromPage_eval (tree page : XTree) (now fn : String) (h w : Int)
    (ro : XTree) (keyed : List (Int × XTree)) (refs : List String)
    (es : List PageElement)
    (hh : pyIntAttr (page.get "imageHeight") = .ok h)
    (hw : pyIntAttr (page.get "imageWidth") = .ok w)
    (hf : page.get "imageFilename" = some fn)
    (hro : findChild page "ReadingOrder" = some ro)
    (hk : keyRriEntries (descendantsRRI ro) = .ok keyed)
    (hx : extractRegionRefs (List.insertionSort rriLe keyed) = .ok refs)
    (hl : from_etree_list (page.children.erase ro) = .ok es) :
    PageXML.fromPage tree page now =
      .ok { parseBase tree page now fn h w with reading_order := refs, elements := es } := by
  unfold PageXML.fromPage
  rw [hh, hw, hf, hro]
  show (match keyRriEntries (descendantsRRI ro) with
      | .error msg => .error msg
      | .ok keyed2 =>
          match extractRegionRefs (List.insertionSort rriLe keyed2) with
          | .error msg => .error msg
          | .ok refs2 =>
              addParsedChildren
                { parseBase tree page now fn h w with reading_order := refs2 }
                (page.children.erase ro)) =
    Except.ok { parseBase tree page now fn h w with reading_order := refs, elements := es }
  rw [hk]
  show (match extractRegionRefs (List.insertionSort rriLe keyed) with
      | .error msg => .error msg
      | .ok refs2 =>
          addParsedChildren
            { parseBase tree page now fn h w with reading_order := refs2 }
            (page.children.erase ro)) =
    Except.ok { parseBase tree page now fn h w with reading_order := refs, elements := es }
  rw [hx]
  show addParsedChildren
      { parseBase tree page now fn h w with reading_order := refs }
      (page.children.erase ro) =
    Except.ok { parseBase tree page now fn h w with reading_order := refs, elements := es }
  rw [addParsedChildren_eq, hl]
  simp only [Except.map, Except.ok.injEq]
  simp [parseBase]

/-- Forward evaluation of fromPage when no ReadingOrder child is present:
all children are parsed and the reading order stays empty. -/
theorem fromPage_eval_noRO (tree page : XTree) (now fn : String) (h w : Int)
    (es : List PageElement)
    (hh : pyIntAttr (page.get "imageHeight") = .ok h)
    (hw : pyIntAttr (page.get "imageWidth") = .ok w)
    (hf : page.get "imageFilename" = some fn)
    (hro : findChild page "ReadingOrder" = none)
    (hl : from_etree_list page.children = .ok es) :
    PageXML.fromPage tree page now =
      .ok { parseBase tree page now fn h w with elements := es } := by
  unfold PageXML.fromPage
  rw [hh, hw, hf, hro]
  show addParsedChildren (parseBase tree page now fn h w) page.children =
    Except.ok { parseBase tree page now fn h w with elements := es }
  rw [addParsedChildren_eq, hl]
  simp only [Except.map, Except.ok.injEq]
  simp [parseBase]

/-- parseBase evaluated on a serialized tree: the metadata fields are read
back, LastChange is the serialization time, and the image attributes are
split off the stored attribute list. -/
theorem parseBase_to_etree (p : PageXML) (loc now now' : String) :
    parseBase (XTree.mk "PcGts" [("xsi:schemaLocation", loc)] none
          [mdTreeOf p now, pageTreeOf p]) (pageTreeOf p) now' p.filename
        (p.height : Int) (p.width : Int) =
      { creator := p.creator
        created := p.created
        last_change := now
        filename := p.filename
        height := (max 0 ((p.height : Nat) : Int)).toNat
        width := (max 0 ((p.width : Nat) : Int)).toNat
        attributes := p.attributes.filter (fun kv =>
          !(kv.1 == "imageFilename" || kv.1 == "imageHeight" || kv.1 == "imageWidth"))
        reading_order := []
        elements := [] } := rfl

/-- C2 (counterexample): the round-trip claim fails as stated. c2ceDoc is a
document with an empty reading order whose single top-level element has type
ReadingOrder (such an element is constructible through the public API);
serialization succeeds, but re-parsing yields a document with no elements at
all and with reading order ["x"]: neither the multiset of top-level elements
nor the set of reading-order ids is preserved, because from_etree consumes
the first ReadingOrder-tagged child of Page as the reading order. -/
theorem c2_roundtrip_counterexample :
    c2ceDoc.reading_order = [] ∧ c2ceDoc.elements.length = 1 ∧
    ((PageXML.to_etree c2ceDoc "loc" "now").bind
        (fun t => PageXML.from_etree t "now")).map
      (fun d => (d.elements, d.reading_order)) = .ok ([], ["x"]) := by
  decide

/-- C2 (amended): for any document p whose stored attributes contain none of
the three image keys (otherwise to_etree raises TypeError) and such that,
when its reading order is empty, no top-level element has type ReadingOrder,
serialization succeeds and parsing it reproduces the document exactly
(elements recursively equal, reading order equal) with LastChange refreshed
to the serialization time; moreover, whenever the reading order is
non-empty, the serialized RegionRefIndexed entries carry index attributes
renumbered contiguously 0..n-1 in the reading order's current order (so
parsing re-sorts by these already-normalized indices). -/
theorem c2_roundtrip (p : PageXML) (loc now now' : String)
    (himg : p.attributes.all (fun kv =>
      !(kv.1 == "imageFilename" || kv.1 == "imageHeight" || kv.1 == "imageWidth")) = true)
    (hsafe : p.reading_order = [] → ∀ e ∈ p.elements, e.pagetype ≠ PageType.ReadingOrder) :
    ∃ t, PageXML.to_etree p loc now = .ok t
      ∧ PageXML.from_etree t now' = .ok { p with last_change := now }
      ∧ (p.reading_order ≠ [] →
          rriIndexValues t =
            some (p.reading_order.enum.map (fun pr => (some (natRepr pr.1), some pr.2)))) := by
  have hfilt : p.attributes.filter (fun kv =>
      !(kv.1 == "imageFilename" || kv.1 == "imageHeight" || kv.1 == "imageWidth")) =
      p.attributes :=
    List.filter_eq_self.mpr (fun a ha => List.all_eq_true.mp himg a ha)
  have hh : pyIntAttr ((pageTreeOf p).get "imageHeight") = .ok ((p.height : Nat) : Int) := by
    show (match parseInt (natRepr p.height) with
      | some v => Except.ok v
      | none => Except.error ("invalid literal for int() with base 10: " ++ natRepr p.height)) =
      Except.ok ((p.height : Nat) : Int)
    rw [parseInt_natRepr]
  have hwd : pyIntAttr ((pageTreeOf p).get "imageWidth") = .ok ((p.width : Nat) : Int) := by
    show (match parseInt (natRepr p.width) with
      | some v => Except.ok v
      | none => Except.error ("invalid literal for int() with base 10: " ++ natRepr p.width)) =
      Except.ok ((p.width : Nat) : Int)
    rw [parseInt_natRepr]
  have hfn : (pageTreeOf p).get "imageFilename" = some p.filename := rfl
  have hH : (max 0 ((p.height : Nat) : Int)).toNat = p.height := max_zero_natCast_toNat p.height
  have hW : (max 0 ((p.width : Nat) : Int)).toNat = p.width := max_zero_natCast_toNat p.width
  refine ⟨XTree.mk "PcGts" [("xsi:schemaLocation", loc)] none [mdTreeOf p now, pageTreeOf p],
    ?_, ?_, ?_⟩
  · unfold PageXML.to_etree
    rw [if_pos himg]
  · have h1 : PageXML.from_etree (XTree.mk "PcGts" [("xsi:schemaLocation", loc)] none
        [mdTreeOf p now, pageTreeOf p]) now' =
        PageXML.fromPage (XTree.mk "PcGts" [("xsi:schemaLocation", loc)] none
          [mdTreeOf p now, pageTreeOf p]) (pageTreeOf p) now' := rfl
    rw [h1]
    cases hc : p.reading_order with
    | nil =>
        have hchild : (pageTreeOf p).children = to_etree_list p.elements := by
          show (if p.reading_order.length > 0 then [roBlockOf p.reading_order] else []) ++
              to_etree_list p.elements = to_etree_list p.elements
          rw [hc]
          rfl
        have hfro : findChild (pageTreeOf p) "ReadingOrder" = none := by
          unfold findChild
          rw [hchild]
          exact find?_to_etree_ReadingOrder_none p.elements (hsafe hc)
        have hl : from_etree_list (pageTreeOf p).children = .ok p.elements := by
          rw [hchild]
          exact from_to_list p.elements
        rw [fromPage_eval_noRO _ _ _ _ _ _ _ hh hwd hfn hfro hl]
        rw [parseBase_to_etree, hH, hW, hfilt]
    | cons s ss =>
        have hlen : p.reading_order.length > 0 := by
          rw [hc]
          simp
        have hchild : (pageTreeOf p).children =
            roBlockOf p.reading_order :: to_etree_list p.elements := by
          show (if p.reading_order.length > 0 then [roBlockOf p.reading_order] else []) ++
              to_etree_list p.elements = roBlockOf p.reading_order :: to_etree_list p.elements
          rw [if_pos hlen]
          rfl
        have hfro : findChild (pageTreeOf p) "ReadingOrder" =
            some (roBlockOf p.reading_order) := by
          unfold findChild
          rw [hchild]
          rfl
        have hkey : keyRriEntries (descendantsRRI (roBlockOf p.reading_order)) =
            .ok (p.reading_order.enum.map (fun pr => ((pr.1 : Int), mkRriEntry pr))) := by
          rw [descendantsRRI_roBlockOf]
          exact keyRriEntries_mkRri p.reading_order.enum
        have hx : extractRegionRefs (List.insertionSort rriLe
            (p.reading_order.enum.map (fun pr => ((pr.1 : Int), mkRriEntry pr)))) =
            .ok p.reading_order := by
          rw [sort_enum_keyed_eq, extractRegionRefs_mkRri]
          exact congrArg Except.ok (List.enum_map_snd p.reading_order)
        have hel : from_etree_list ((pageTreeOf p).children.erase
            (roBlockOf p.reading_order)) = .ok p.elements := by
          rw [hchild, List.erase_cons_head]
          exact from_to_list p.elements
        rw [fromPage_eval _ _ _ _ _ _ _ _ _ _ hh hwd hfn hfro hkey hx hel]
        rw [parseBase_to_etree, hH, hW, hc, hfilt]
  · intro hne
    have hlen : p.reading_order.length > 0 := List.length_pos.mpr hne
    have hchild : (pageTreeOf p).children =
        roBlockOf p.reading_order :: to_etree_list p.elements := by
      show (if p.reading_order.length > 0 then [roBlockOf p.reading_order] else []) ++
          to_etree_list p.elements = roBlockOf p.reading_order :: to_etree_list p.elements
      rw [if_pos hlen]
      rfl
    have hfro : findChild (pageTreeOf p) "ReadingOrder" =
        some (roBlockOf p.reading_order) := by
      unfold findChild
      rw [hchild]
      rfl
    have hpage : findChild (XTree.mk "PcGts" [("xsi:schemaLocation", loc)] none
        [mdTreeOf p now, pageTreeOf p]) "Page" = some (pageTreeOf p) := rfl
    unfold rriIndexValues
    rw [hpage]
    show (findChild (pageTreeOf p) "ReadingOrder").map
        (fun ro => (descendantsRRI ro).map (fun t => (t.get "index", t.get "regionRef"))) =
      some (p.reading_order.enum.map (fun pr => (some (natRepr pr.1), some pr.2)))
    rw [hfro]
    show some ((descendantsRRI (roBlockOf p.reading_order)).map
        (fun t => (t.get "index", t.get "regionRef"))) =
      some (p.reading_order.enum.map (fun pr => (some (natRepr pr.1), some pr.2)))
    rw [descendantsRRI_roBlockOf]
    have hmapeq : ∀ l : List (Nat × String),
        (l.map mkRriEntry).map (fun t => (t.get "index", t.get "regionRef")) =
          l.map (fun pr => (some (natRepr pr.1), some pr.2)) := by
      intro l
      induction l with
      | nil => rfl
      | cons a t ih =>
          simp only [List.map_cons]
          rw [ih]
          rfl
    rw [hmapeq]

/-- C2 witness: the amended round trip at the concrete document c2doc (one
text region, reading order ["r1"], one image-free stored attribute):
serialization succeeds, parsing it reproduces the document with LastChange
refreshed, and the serialized index attributes are 0-based contiguous. -/
theorem c2_roundtrip_witness :
    c2doc.attributes.all (fun kv =>
      !(kv.1 == "imageFilename" || kv.1 == "imageHeight" || kv.1 == "imageWidth")) = true
    ∧ (∃ t, PageXML.to_etree c2doc "loc" "now2" = .ok t
        ∧ PageXML.from_etree t "now3" = .ok { c2doc with last_change := "now2" }
        ∧ (c2doc.reading_order ≠ [] →
            rriIndexValues t =
              some (c2doc.reading_order.enum.map
                (fun pr => (some (natRepr pr.1), some pr.2))))) :=
  ⟨by decide, c2_roundtrip c2doc "loc" "now2" "now3" (by decide)
    (fun hro => absurd hro (by decide))⟩
